import Mathlib

/-!
# Verification of the block-stacking physics engine

Shallow embedding of the engine's JavaScript modules:

* the block model (`createBlock`, `getBounds`, `getCenter`, material helpers,
  `blockToJSON` / `blockFromJSON`);
* the SI-units physics module (`PhysicsSI`): `checkCollision`,
  `resolveCollision` with `separateBlocks` / `applyImpulse` / `applyFriction`,
  and `constrainToWorld`;
* the pixel-units physics module (`PhysicsPx`): the normal-based
  `resolveCollision` with positional correction, friction and sticking;
* the world module (SI iteration): `startDrag`, `updateDrag`,
  `importTemplates`, `isBlockAbove`, `findBlocksDirectlyAbove`,
  `findStackAbove`.

Conventions: JavaScript numbers are embedded as exact rationals (`ℚ`); decimal
literals of the source such as `0.05` appear as `1/20`.  In-place mutation is
embedded as explicit state passing: a function mutating its two block
arguments returns the updated pair, and world-mutating functions return the
updated world.  `JSON.parse` (a platform primitive, not repository code) is
embedded by quantifying over its possible outcomes (`Except String JsonValue`).
-/

/-- A JSON value, as produced by `JSON.parse`. -/
inductive JsonValue where
  | null : JsonValue
  | bool : Bool → JsonValue
  | num : ℚ → JsonValue
  | str : String → JsonValue
  | arr : List JsonValue → JsonValue
  | obj : List (String × JsonValue) → JsonValue

/-- A block: the plain object produced by `createBlock` in the block module. -/
structure Block where
  id : String
  x : ℚ
  y : ℚ
  width : ℚ
  height : ℚ
  mass : ℚ
  friction : ℚ
  bounciness : ℚ
  sticky : Bool
  slippery : Bool
  shape : String
  vx : ℚ
  vy : ℚ
  rotation : ℚ
  angularVelocity : ℚ
  isStatic : Bool
  isDragging : Bool
  stuckTo : List String
deriving DecidableEq, Repr

/-- Result of `getBounds`. -/
structure Bounds where
  left : ℚ
  right : ℚ
  top : ℚ
  bottom : ℚ
deriving DecidableEq, Repr

/-- `getBounds` from the block module. -/
def getBounds (block : Block) : Bounds :=
  { left := block.x
    right := block.x + block.width
    top := block.y
    bottom := block.y + block.height }

/-- `getCenter` from the block module. -/
def getCenter (block : Block) : ℚ × ℚ :=
  (block.x + block.width / 2, block.y + block.height / 2)

/-- `getEffectiveFriction` from the block module. -/
def getEffectiveFriction (block1 block2 : Block) : ℚ :=
  if block1.slippery || block2.slippery then
    min block1.friction block2.friction * (1/5)
  else
    (block1.friction + block2.friction) / 2

/-- `getEffectiveBounciness` from the block module. -/
def getEffectiveBounciness (block1 block2 : Block) : ℚ :=
  (block1.bounciness + block2.bounciness) / 2

/-- `shouldStick` from the block module. -/
def shouldStick (block1 block2 : Block) : Bool :=
  block1.sticky || block2.sticky

/-- `Math.sign`. -/
def jsSign (q : ℚ) : ℚ :=
  if 0 < q then 1 else if q < 0 then -1 else 0

namespace PhysicsSI

/-- The collision record `{ overlapX, overlapY, dirX, dirY }` returned by the
SI-units `checkCollision`. -/
structure Collision where
  overlapX : ℚ
  overlapY : ℚ
  dirX : ℚ
  dirY : ℚ
deriving DecidableEq, Repr

/-- `checkCollision` from the SI-units physics module: per-axis overlaps and
center-to-center axis directions (`Math.sign(...) || 1`). -/
def checkCollision (block1 block2 : Block) : Option Collision :=
  let b1 := getBounds block1
  let b2 := getBounds block2
  let overlapX := min (b1.right - b2.left) (b2.right - b1.left)
  let overlapY := min (b1.bottom - b2.top) (b2.bottom - b1.top)
  if overlapX ≤ 0 ∨ overlapY ≤ 0 then none
  else
    let c1 := getCenter block1
    let c2 := getCenter block2
    let dirX := if jsSign (c1.1 - c2.1) = 0 then 1 else jsSign (c1.1 - c2.1)
    let dirY := if jsSign (c1.2 - c2.2) = 0 then 1 else jsSign (c1.2 - c2.2)
    some ⟨overlapX, overlapY, dirX, dirY⟩

/-- `separateBlocks` from the SI-units physics module: full push for a static
partner, otherwise a 50/50 split, on BOTH axes. -/
def separateBlocks (block1 block2 : Block) (overlapX overlapY dirX dirY : ℚ) :
    Block × Block :=
  if block1.isStatic then
    (block1, { block2 with x := block2.x - dirX * overlapX,
                           y := block2.y - dirY * overlapY })
  else if block2.isStatic then
    ({ block1 with x := block1.x + dirX * overlapX,
                   y := block1.y + dirY * overlapY }, block2)
  else
    ({ block1 with x := block1.x + dirX * overlapX * (1/2),
                   y := block1.y + dirY * overlapY * (1/2) },
     { block2 with x := block2.x - dirX * overlapX * (1/2),
                   y := block2.y - dirY * overlapY * (1/2) })

/-- `applyImpulse` from the SI-units physics module: an independent
restitution impulse on each axis, applied only to sides that are neither
static nor dragging. -/
def applyImpulse (block1 block2 : Block) (dirX dirY : ℚ) : Block × Block :=
  let bounciness := getEffectiveBounciness block1 block2
  let invMass1 : ℚ := if block1.isStatic then 0 else 1 / block1.mass
  let invMass2 : ℚ := if block2.isStatic then 0 else 1 / block2.mass
  let totalInvMass := invMass1 + invMass2
  if totalInvMass = 0 then (block1, block2)
  else
    let relVx := block1.vx - block2.vx
    let p :=
      if relVx * dirX < 0 then
        let jx := -(1 + bounciness) * relVx / totalInvMass
        (if !block1.isStatic && !block1.isDragging then
           { block1 with vx := block1.vx + jx * invMass1 } else block1,
         if !block2.isStatic && !block2.isDragging then
           { block2 with vx := block2.vx - jx * invMass2 } else block2)
      else (block1, block2)
    let relVy := p.1.vy - p.2.vy
    if relVy * dirY < 0 then
      let jy := -(1 + bounciness) * relVy / totalInvMass
      (if !p.1.isStatic && !p.1.isDragging then
         { p.1 with vy := p.1.vy + jy * invMass1 } else p.1,
       if !p.2.isStatic && !p.2.isDragging then
         { p.2 with vy := p.2.vy - jy * invMass2 } else p.2)
    else p

/-- `applyFriction` from the SI-units physics module: friction acts on the
axis with the LARGER overlap (tangent to the contact). -/
def applyFriction (block1 block2 : Block) (overlapX overlapY : ℚ) :
    Block × Block :=
  let friction := getEffectiveFriction block1 block2
  if overlapX < overlapY then
    let relVy := block1.vy - block2.vy
    let frictionImpulse := relVy * friction * (1/2)
    (if !block1.isStatic && !block1.isDragging then
       { block1 with vy := block1.vy - frictionImpulse } else block1,
     if !block2.isStatic && !block2.isDragging then
       { block2 with vy := block2.vy + frictionImpulse } else block2)
  else
    let relVx := block1.vx - block2.vx
    let frictionImpulse := relVx * friction * (1/2)
    (if !block1.isStatic && !block1.isDragging then
       { block1 with vx := block1.vx - frictionImpulse } else block1,
     if !block2.isStatic && !block2.isDragging then
       { block2 with vx := block2.vx + frictionImpulse } else block2)

/-- `resolveCollision` from the SI-units physics module: separation, per-axis
impulse, then friction. -/
def resolveCollision (block1 block2 : Block) (collision : Option Collision) :
    Block × Block :=
  match collision with
  | none => (block1, block2)
  | some c =>
    if block1.isStatic && block2.isStatic then (block1, block2)
    else
      let p := separateBlocks block1 block2 c.overlapX c.overlapY c.dirX c.dirY
      let q := applyImpulse p.1 p.2 c.dirX c.dirY
      applyFriction q.1 q.2 c.overlapX c.overlapY

/-- `constrainToWorld`: identical source in the SI-units and pixel-units
physics modules.  Bounds are computed once, up front; velocities are read and
written sequentially. -/
def constrainToWorld (block : Block) (worldWidth worldHeight : ℚ) : Block :=
  if block.isStatic then block
  else
    let bounds := getBounds block
    let b1 :=
      if bounds.left < 0 then
        { block with x := 0, vx := |block.vx| * block.bounciness }
      else block
    let b2 :=
      if bounds.right > worldWidth then
        { b1 with x := worldWidth - b1.width, vx := -|b1.vx| * b1.bounciness }
      else b1
    let b3 :=
      if bounds.bottom > worldHeight then
        let b3a := { b2 with y := worldHeight - b2.height,
                             vy := -|b2.vy| * b2.bounciness }
        { b3a with vx := b3a.vx * (1 - b3a.friction * (1/10)) }
      else b2
    if bounds.top < 0 then
      { b3 with y := 0, vy := |b3.vy| * b3.bounciness }
    else b3

end PhysicsSI

namespace PhysicsPx

/-- The collision record `{ normal, penetration }` returned by the pixel-units
`checkCollision` (the normal there is the normalized center-to-center vector,
so it satisfies `nx^2 + ny^2 = 1`). -/
structure Collision where
  nx : ℚ
  ny : ℚ
  penetration : ℚ
deriving DecidableEq, Repr

/-- `separateBlocks` from the pixel-units physics module: inverse-mass
weighted positional correction along the normal, with slop `0.01` and
factor `0.8`. -/
def separateBlocks (block1 block2 : Block) (nx ny penetration : ℚ) :
    Block × Block :=
  if block1.isStatic && block2.isStatic then (block1, block2)
  else
    let totalInverseMass :=
      (if block1.isStatic then 0 else 1 / block1.mass) +
      (if block2.isStatic then 0 else 1 / block2.mass)
    if totalInverseMass = 0 then (block1, block2)
    else
      let slop : ℚ := 1/100
      let correctionAmount := max (penetration - slop) 0 / totalInverseMass * (4/5)
      (if !block1.isStatic then
         { block1 with x := block1.x + nx * correctionAmount / block1.mass,
                       y := block1.y + ny * correctionAmount / block1.mass }
       else block1,
       if !block2.isStatic then
         { block2 with x := block2.x - nx * correctionAmount / block2.mass,
                       y := block2.y - ny * correctionAmount / block2.mass }
       else block2)

/-- `applyFriction` from the pixel-units physics module: an impulse along the
tangent `(-ny, nx)`, split half/half between the movable sides. -/
def applyFriction (block1 block2 : Block) (nx ny : ℚ) : Block × Block :=
  let tx := -ny
  let ty := nx
  let relVelAlongTangent :=
    (block1.vx - block2.vx) * tx + (block1.vy - block2.vy) * ty
  let friction := getEffectiveFriction block1 block2
  let frictionImpulse := relVelAlongTangent * friction
  (if !block1.isStatic && !block1.isDragging then
     { block1 with vx := block1.vx - frictionImpulse * tx * (1/2),
                   vy := block1.vy - frictionImpulse * ty * (1/2) }
   else block1,
   if !block2.isStatic && !block2.isDragging then
     { block2 with vx := block2.vx + frictionImpulse * tx * (1/2),
                   vy := block2.vy + frictionImpulse * ty * (1/2) }
   else block2)

/-- `handleSticking` from the pixel-units physics module. -/
def handleSticking (block1 block2 : Block) : Block × Block :=
  (if block1.stuckTo.contains block2.id then block1
   else { block1 with stuckTo := block1.stuckTo ++ [block2.id] },
   if block2.stuckTo.contains block1.id then block2
   else { block2 with stuckTo := block2.stuckTo ++ [block1.id] })

/-- `resolveCollision` from the pixel-units physics module: positional
separation, an early return for separating pairs, a single restitution
impulse along the normal, tangential friction, and sticking. -/
def resolveCollision (block1 block2 : Block) (collision : Option Collision) :
    Block × Block :=
  match collision with
  | none => (block1, block2)
  | some c =>
    if block1.isStatic && block2.isStatic then (block1, block2)
    else
      let p := separateBlocks block1 block2 c.nx c.ny c.penetration
      let b1 := p.1
      let b2 := p.2
      let relVelAlongNormal :=
        (b1.vx - b2.vx) * c.nx + (b1.vy - b2.vy) * c.ny
      if relVelAlongNormal > 0 then (b1, b2)
      else
        let bounciness := getEffectiveBounciness b1 b2
        let totalInverseMass :=
          (if b1.isStatic then 0 else 1 / b1.mass) +
          (if b2.isStatic then 0 else 1 / b2.mass)
        if totalInverseMass = 0 then (b1, b2)
        else
          let impulse := -(1 + bounciness) * relVelAlongNormal / totalInverseMass
          let b1i :=
            if !b1.isStatic && !b1.isDragging then
              { b1 with vx := b1.vx + impulse * c.nx / b1.mass,
                        vy := b1.vy + impulse * c.ny / b1.mass }
            else b1
          let b2i :=
            if !b2.isStatic && !b2.isDragging then
              { b2 with vx := b2.vx - impulse * c.nx / b2.mass,
                        vy := b2.vy - impulse * c.ny / b2.mass }
            else b2
          let q := applyFriction b1i b2i c.nx c.ny
          if shouldStick q.1 q.2 then handleSticking q.1 q.2 else q

end PhysicsPx

/-- The world state created by `createWorld` (SI-units world module).  The
drag offset pair is flattened into two fields. -/
structure World where
  width : ℚ
  height : ℚ
  blocks : List Block
  blockTemplates : List JsonValue
  selectedBlockId : Option String
  draggedBlockId : Option String
  dragOffsetX : ℚ
  dragOffsetY : ℚ
  paused : Bool

/-- `getBlockById`: `world.blocks.find(b => b.id === blockId)`. -/
def getBlockById (world : World) (blockId : String) : Option Block :=
  world.blocks.find? (fun b => b.id == blockId)

/-- In-place mutation of the first block with a given id (the object returned
by `getBlockById`), embedded as a functional update of that list position. -/
def updateFirstById : List Block → String → (Block → Block) → List Block
  | [], _, _ => []
  | b :: rest, i, f =>
    if b.id == i then f b :: rest else b :: updateFirstById rest i f

/-- `startDrag` from the SI-units world module: silently no-ops on a missing
or static block, otherwise records the drag reference and offset, flags the
block and zeroes its velocity. -/
def startDrag (world : World) (blockId : String) (mouseX mouseY : ℚ) : World :=
  match getBlockById world blockId with
  | none => world
  | some block =>
    if block.isStatic then world
    else
      { world with
        draggedBlockId := some blockId
        dragOffsetX := mouseX - block.x
        dragOffsetY := mouseY - block.y
        blocks := updateFirstById world.blocks blockId
          (fun b => { b with isDragging := true, vx := 0, vy := 0 }) }

/-- `updateDrag` from the SI-units world module: always repositions the
dragged block to the pointer minus the stored offset; the implied velocity
`(new - old) / dt` is written only under the `dt > 0` guard. -/
def updateDrag (world : World) (mouseX mouseY dt : ℚ) : World :=
  match world.draggedBlockId with
  | none => world
  | some did =>
    match getBlockById world did with
    | none => world
    | some _ =>
      let newX := mouseX - world.dragOffsetX
      let newY := mouseY - world.dragOffsetY
      { world with
        blocks := updateFirstById world.blocks did (fun b =>
          if dt > 0 then
            { b with x := newX, y := newY,
                     vx := (newX - b.x) / dt, vy := (newY - b.y) / dt }
          else
            { b with x := newX, y := newY }) }

/-- `importTemplates`, with `JSON.parse` embedded as its outcome: an
exception (`.error`) is caught and reported as `false`; a non-array value is
rejected; an array replaces `blockTemplates` wholesale. -/
def importTemplates (world : World) (parsed : Except String JsonValue) :
    Bool × World :=
  match parsed with
  | .error _ => (false, world)
  | .ok (.arr templates) => (true, { world with blockTemplates := templates })
  | .ok _ => (false, world)

/-- `CONTACT_TOLERANCE = 0.05` from the SI-units world module. -/
def CONTACT_TOLERANCE : ℚ := 1/20

/-- `isBlockAbove` from the SI-units world module: vertical contact within
the tolerance AND strict horizontal span intersection. -/
def isBlockAbove (upper lower : Block) : Bool :=
  let upperBounds := getBounds upper
  let lowerBounds := getBounds lower
  decide (|upperBounds.bottom - lowerBounds.top| < CONTACT_TOLERANCE) &&
  decide (upperBounds.right > lowerBounds.left) &&
  decide (upperBounds.left < lowerBounds.right)

/-- `findBlocksDirectlyAbove` from the SI-units world module. -/
def findBlocksDirectlyAbove (world : World) (block : Block) : List Block :=
  world.blocks.filter (fun other =>
    other.id != block.id && !other.isStatic && isBlockAbove other block)

/-- `findStackAbove` from the SI-units world module, with the shared mutable
`visited` set threaded through the recursion (the JS `Set` is passed by
reference into every recursive call) and a fuel argument standing in for the
unbounded JS recursion; `findStackAbove_stable` below shows the recursion
needs no more than `world.blocks.length + 1` nested calls. -/
def findStackAboveF :
    Nat → World → Block → List String → List Block × List String
  | 0, _, _, visited => ([], visited)
  | fuel + 1, world, block, visited =>
    if block.id ∈ visited then ([], visited)
    else
      let visited1 := block.id :: visited
      let directlyAbove := findBlocksDirectlyAbove world block
      let r := directlyAbove.foldl
        (fun acc above =>
          let s := findStackAboveF fuel world above acc.2
          (acc.1 ++ s.1, s.2))
        (([] : List Block), visited1)
      (directlyAbove ++ r.1, r.2)

/-- `findStackAbove world block` (the external entry point: `visited`
defaults to an empty set), run with enough fuel for the recursion to
complete. -/
def findStackAbove (world : World) (block : Block) : List Block :=
  (findStackAboveF (world.blocks.length + 1) world block []).1

/-- The fold over the `directlyAbove` list inside `findStackAbove`, as a
standalone recursion (used to state lemmas about the traversal; equal to the
`foldl` in `findStackAboveF` by `foldl_eq_foldChildren`). -/
def foldChildren (fuel : Nat) (world : World) :
    List Block → List Block × List String → List Block × List String
  | [], acc => acc
  | a :: as, acc =>
    let s := findStackAboveF fuel world a acc.2
    foldChildren fuel world as (acc.1 ++ s.1, s.2)

/-- The direct-rest relation tested by the traversal: `u` is a world block,
distinct from `l` by id, non-static, and `isBlockAbove u l` holds. -/
def directAbove (world : World) (l u : Block) : Prop :=
  u ∈ world.blocks ∧ u.id ≠ l.id ∧ u.isStatic = false ∧
    isBlockAbove u l = true

/-- Reachability upward through `directAbove` in one or more steps, where
every step's target id avoids the list `V` (the `visited` set a traversal
starts from). -/
inductive ReachAvoid (world : World) (V : List String) : Block → Block → Prop
  | single {l u : Block} : directAbove world l u → u.id ∉ V →
      ReachAvoid world V l u
  | tail {l m u : Block} : ReachAvoid world V l m → directAbove world m u →
      u.id ∉ V → ReachAvoid world V l u

/-- `u` rests (transitively, one or more steps) above `l`. -/
def RestsAbove (world : World) (l u : Block) : Prop :=
  ReachAvoid world [] l u

/-- Number of distinct world-block ids not yet in the visited list: the
measure that bounds the traversal's recursion depth. -/
def freshCount (world : World) (V : List String) : Nat :=
  ((world.blocks.map Block.id).dedup.filter
    (fun i => decide (i ∉ V))).length

/-- The options object accepted by `createBlock`; a missing property is
`none` and triggers the `??` default. -/
structure BlockOptions where
  id : Option String := none
  x : Option ℚ := none
  y : Option ℚ := none
  width : Option ℚ := none
  height : Option ℚ := none
  mass : Option ℚ := none
  friction : Option ℚ := none
  bounciness : Option ℚ := none
  sticky : Option Bool := none
  slippery : Option Bool := none
  shape : Option String := none
  vx : Option ℚ := none
  vy : Option ℚ := none
  rotation : Option ℚ := none
  angularVelocity : Option ℚ := none
  isStatic : Option Bool := none

/-- `generateId`: the id produced after the global counter is pre-incremented
to `n`. -/
def generateId (n : ℕ) : String := "block_" ++ toString n

/-- `createBlock` from the block module, with the global id counter threaded
explicitly; `options.id ?? generateId()` evaluates `generateId()` (and bumps
the counter) only when no id is supplied. -/
def createBlock (options : BlockOptions) (idCounter : ℕ) : Block × ℕ :=
  let idc : String × ℕ :=
    match options.id with
    | some i => (i, idCounter)
    | none => (generateId (idCounter + 1), idCounter + 1)
  ({ id := idc.1
     x := options.x.getD 0
     y := options.y.getD 0
     width := options.width.getD 50
     height := options.height.getD 50
     mass := options.mass.getD 1
     friction := options.friction.getD (1/2)
     bounciness := options.bounciness.getD (1/5)
     sticky := options.sticky.getD false
     slippery := options.slippery.getD false
     shape := options.shape.getD "square"
     vx := options.vx.getD 0
     vy := options.vy.getD 0
     rotation := options.rotation.getD 0
     angularVelocity := options.angularVelocity.getD 0
     isStatic := options.isStatic.getD false
     isDragging := false
     stuckTo := [] }, idc.2)

/-- The plain record produced by `blockToJSON`: exactly the eight
configurable properties, no kinematic state. -/
structure BlockJSON where
  width : ℚ
  height : ℚ
  mass : ℚ
  friction : ℚ
  bounciness : ℚ
  sticky : Bool
  slippery : Bool
  shape : String
deriving DecidableEq, Repr

/-- `blockToJSON` from the block module. -/
def blockToJSON (block : Block) : BlockJSON :=
  { width := block.width
    height := block.height
    mass := block.mass
    friction := block.friction
    bounciness := block.bounciness
    sticky := block.sticky
    slippery := block.slippery
    shape := block.shape }

/-- `blockFromJSON` from the block module:
`createBlock({ ...json, x, y })` — the spread supplies the eight configurable
properties plus the position; everything else is left to the defaults. -/
def blockFromJSON (json : BlockJSON) (x y : ℚ) (idCounter : ℕ) : Block × ℕ :=
  createBlock
    { width := some json.width
      height := some json.height
      mass := some json.mass
      friction := some json.friction
      bounciness := some json.bounciness
      sticky := some json.sticky
      slippery := some json.slippery
      shape := some json.shape
      x := some x
      y := some y } idCounter

/-! ## Sample data used by witnesses and counterexamples -/

/-- A plain dynamic unit block (all material values integral). -/
def sampleBlock : Block :=
  { id := "A", x := 1, y := 1, width := 1, height := 1, mass := 1,
    friction := 1, bounciness := 0, sticky := false, slippery := false,
    shape := "square", vx := 0, vy := 0, rotation := 0, angularVelocity := 0,
    isStatic := false, isDragging := false, stuckTo := [] }

/-- A world containing just `sampleBlock`. -/
def sampleWorld : World :=
  { width := 4, height := 6, blocks := [sampleBlock],
    blockTemplates := [JsonValue.num 1], selectedBlockId := none,
    draggedBlockId := none, dragOffsetX := 0, dragOffsetY := 0,
    paused := false }

/-- `sampleWorld` mid-drag: `sampleBlock` is being dragged. -/
def draggingWorld : World :=
  { sampleWorld with
    blocks := [{ sampleBlock with isDragging := true }],
    draggedBlockId := some "A",
    dragOffsetX := 1, dragOffsetY := 1 }

/-- The square-landing scenario of the spec's test catalogue (SI units): a
half-meter block falling at `vy = 2` onto a static block directly below, with
a large horizontal overlap (`0.5`) and a small vertical one (`0.05`). -/
def fallingBlock : Block :=
  { sampleBlock with
    id := "t", x := 1, y := 51/20, width := 1/2,
    height := 1/2, friction := 1/2, bounciness := 1/2, vy := 2 }

/-- The static landing pad under `fallingBlock`. -/
def baseBlock : Block :=
  { sampleBlock with
    id := "b", x := 1, y := 3, width := 1/2, height := 1/2,
    friction := 1/2, bounciness := 1/5, isStatic := true }

/-- Square landing for the pixel-units module, with the blocks' centers
offset by the 3-4-5 vector `(27/80, 36/80)` so that the module's normalized
center-to-center normal is exactly `(-3/5, -4/5)`: overlaps are
`minOverlapX = 13/80` and `minOverlapY = 1/20` (horizontal much larger), and
`penetration = 1/20`. -/
def fallingBlockPx : Block :=
  { sampleBlock with
    id := "t", x := 0, y := 51/20, width := 1/2,
    height := 1/2, friction := 1/2, bounciness := 1/2, vy := 2 }

/-- The static landing pad under `fallingBlockPx` (horizontally offset). -/
def baseBlockPx : Block :=
  { sampleBlock with
    id := "b", x := 27/80, y := 3, width := 1/2,
    height := 1/2, friction := 1/2, bounciness := 1/5, isStatic := true }

/-- A dynamic block wider than the 4-unit world. -/
def oversizedBlock : Block :=
  { sampleBlock with
    x := -1, y := 0, width := 10, height := 1/2, bounciness := 0 }

/-- A block past the left wall but moving rightwards (away from it). -/
def wallBlock : Block :=
  { sampleBlock with
    x := -1, y := 0, width := 1/2, height := 1/2, vx := 5,
    bounciness := 1/2 }

/-- A block simultaneously through the left wall and the floor, moving into
both. -/
def cornerBlock : Block :=
  { sampleBlock with
    x := -2, y := 7, width := 1, height := 1, vx := -3, vy := 2,
    bounciness := 1/2, friction := 1 }


/-- First half of a mutual-rest cycle: a block so thin (height `0.04`, under
the `0.05` contact tolerance) that two copies at the same position each count
as resting on the other. -/
def cycleA : Block :=
  { sampleBlock with id := "A", x := 0, y := 0, width := 1, height := 1/25 }

/-- Second half of the mutual-rest cycle. -/
def cycleB : Block :=
  { sampleBlock with id := "B", x := 0, y := 0, width := 1, height := 1/25 }

/-- A world whose two blocks rest on each other cyclically. -/
def cycleWorld : World :=
  { sampleWorld with blocks := [cycleA, cycleB] }

/-- Base of a diamond-shaped stack: a 2-wide slab. -/
def dBase : Block :=
  { sampleBlock with id := "base", x := 0, y := 2, width := 2, height := 1 }

/-- Left block of the diamond, resting on `dBase`. -/
def dL : Block :=
  { sampleBlock with id := "L", x := 0, y := 1, width := 1, height := 1 }

/-- Right block of the diamond, resting on `dBase`. -/
def dR : Block :=
  { sampleBlock with id := "R", x := 1, y := 1, width := 1, height := 1 }

/-- Top slab of the diamond, resting on both `dL` and `dR`. -/
def dT : Block :=
  { sampleBlock with id := "T", x := 0, y := 0, width := 2, height := 1 }

/-- The diamond world: `dT` is reachable from `dBase` along two distinct
rest chains (via `dL` and via `dR`). -/
def diamondWorld : World :=
  { sampleWorld with blocks := [dBase, dL, dR, dT] }

/-! ## Helper lemmas about the embedded list mutation -/

lemma find?_updateFirstById (l : List Block) (i : String) (f : Block → Block)
    (hf : ∀ b, (f b).id = b.id) :
    (updateFirstById l i f).find? (fun b => b.id == i) =
      (l.find? (fun b => b.id == i)).map f := by
  induction l with
  | nil => simp [updateFirstById]
  | cons b rest ih =>
    by_cases h : b.id = i
    · simp [updateFirstById, List.find?, h, hf]
    · have h' : (b.id == i) = false := by simp [h]
      simp [updateFirstById, List.find?, h', ih]

lemma mem_updateFirstById_of_ne (l : List Block) (i : String)
    (f : Block → Block) (c : Block) (hc : c ∈ l) (hne : c.id ≠ i) :
    c ∈ updateFirstById l i f := by
  induction l with
  | nil => simp at hc
  | cons b rest ih =>
    rcases List.mem_cons.mp hc with rfl | hmem
    · have h' : (c.id == i) = false := by simp [hne]
      simp [updateFirstById, h']
    · by_cases h : b.id = i
      · simp [updateFirstById, h, List.mem_cons, hmem]
      · have h' : (b.id == i) = false := by simp [h]
        simp only [updateFirstById, h', if_false]
        exact List.mem_cons_of_mem _ (ih hmem)

/-! ## C10 -/

/-- C10: for every block `b` and target coordinates `(x, y)`, the round trip
`blockFromJSON(blockToJSON(b), x, y)` yields a block with `b`'s eight
configurable properties (width, height, mass, friction, bounciness, sticky,
slippery, shape), positioned at `(x, y)`, with zero velocity, `isDragging`
false and a freshly generated id (the global counter is bumped once); the
embedding is purely functional, so `b` itself is untouched. -/
theorem blockFromJSON_blockToJSON_roundtrip (b : Block) (x y : ℚ) (c : ℕ) :
    let r := blockFromJSON (blockToJSON b) x y c
    r.1.width = b.width ∧ r.1.height = b.height ∧ r.1.mass = b.mass ∧
    r.1.friction = b.friction ∧ r.1.bounciness = b.bounciness ∧
    r.1.sticky = b.sticky ∧ r.1.slippery = b.slippery ∧
    r.1.shape = b.shape ∧ r.1.x = x ∧ r.1.y = y ∧
    r.1.vx = 0 ∧ r.1.vy = 0 ∧ r.1.isDragging = false ∧
    r.1.id = generateId (c + 1) ∧ r.2 = c + 1 := by
  simp [blockFromJSON, blockToJSON, createBlock]

/-! ## C8 -/

/-- C8: `importTemplates` reports a boolean: it returns `true` exactly when
`JSON.parse` produced an array, in which case `blockTemplates` is replaced by
that array and nothing else changes; on an exception or a non-array payload
it returns `false` and the world — including the existing `blockTemplates` —
is entirely unchanged. -/
theorem importTemplates_validates_list (w : World)
    (parsed : Except String JsonValue) :
    ((importTemplates w parsed).1 = true ↔
      ∃ ts, parsed = Except.ok (JsonValue.arr ts)) ∧
    (∀ ts, parsed = Except.ok (JsonValue.arr ts) →
      importTemplates w parsed = (true, { w with blockTemplates := ts })) ∧
    ((importTemplates w parsed).1 = false →
      (importTemplates w parsed).2 = w) := by
  rcases parsed with e | v
  · simp [importTemplates]
  · cases v <;> simp [importTemplates]

/-- Witness for C8 at a concrete world and payload. -/
theorem importTemplates_validates_list_witness :
    importTemplates sampleWorld
        (Except.ok (JsonValue.arr [JsonValue.num 2])) =
      (true, { sampleWorld with blockTemplates := [JsonValue.num 2] }) :=
  (importTemplates_validates_list sampleWorld
    (Except.ok (JsonValue.arr [JsonValue.num 2]))).2.1 [JsonValue.num 2] rfl

/-! ## C7 -/

/-- C7: `startDrag` is a silent no-op (world value unchanged) when the id
names no live block or a static block; otherwise it sets `draggedBlockId` to
that block, records `dragOffset = (pointer - block origin)`, flags the block
as dragging with exactly zero velocity, and touches nothing else (the other
blocks and the remaining world fields are unchanged). -/
theorem startDrag_spec (w : World) (blockId : String) (mx my : ℚ) :
    (getBlockById w blockId = none → startDrag w blockId mx my = w) ∧
    (∀ b, getBlockById w blockId = some b → b.isStatic = true →
      startDrag w blockId mx my = w) ∧
    (∀ b, getBlockById w blockId = some b → b.isStatic = false →
      (startDrag w blockId mx my).draggedBlockId = some blockId ∧
      (startDrag w blockId mx my).dragOffsetX = mx - b.x ∧
      (startDrag w blockId mx my).dragOffsetY = my - b.y ∧
      getBlockById (startDrag w blockId mx my) blockId =
        some { b with isDragging := true, vx := 0, vy := 0 } ∧
      (startDrag w blockId mx my).width = w.width ∧
      (startDrag w blockId mx my).height = w.height ∧
      (startDrag w blockId mx my).blockTemplates = w.blockTemplates ∧
      (startDrag w blockId mx my).selectedBlockId = w.selectedBlockId ∧
      (startDrag w blockId mx my).paused = w.paused ∧
      (∀ c ∈ w.blocks, c.id ≠ blockId →
        c ∈ (startDrag w blockId mx my).blocks)) := by
  refine ⟨fun hnone => ?_, fun b hb hs => ?_, fun b hb hs => ?_⟩
  · simp [startDrag, hnone]
  · simp [startDrag, hb, hs]
  · have hupd : getBlockById (startDrag w blockId mx my) blockId =
        some { b with isDragging := true, vx := 0, vy := 0 } := by
      simp only [startDrag, hb, hs, if_false, Bool.false_eq_true]
      unfold getBlockById
      simp only
      rw [find?_updateFirstById w.blocks blockId
        (fun c => { c with isDragging := true, vx := 0, vy := 0 })
        (fun _ => rfl)]
      unfold getBlockById at hb
      rw [hb]
      simp [hs]
    refine ⟨?_, ?_, ?_, hupd, ?_, ?_, ?_, ?_, ?_, ?_⟩ <;>
      simp [startDrag, hb, hs] <;>
      intro c hc hne <;>
      exact mem_updateFirstById_of_ne _ _ _ _ hc hne

/-- Witness for C7: dragging the sample block. -/
theorem startDrag_spec_witness :
    (startDrag sampleWorld "A" 2 3).draggedBlockId = some "A" ∧
    (startDrag sampleWorld "A" 2 3).dragOffsetX = 2 - sampleBlock.x ∧
    (startDrag sampleWorld "A" 2 3).dragOffsetY = 3 - sampleBlock.y ∧
    getBlockById (startDrag sampleWorld "A" 2 3) "A" =
      some { sampleBlock with isDragging := true, vx := 0, vy := 0 } := by
  have h := (startDrag_spec sampleWorld "A" 2 3).2.2 sampleBlock rfl rfl
  exact ⟨h.1, h.2.1, h.2.2.1, h.2.2.2.1⟩

/-! ## C9 -/

/-- C9: with a live dragged block, `updateDrag` called with `dt ≤ 0` still
repositions the dragged block to the pointer minus the stored offset, but the
implied-velocity division by `dt` is guarded, so `vx`/`vy` are left exactly
unchanged (no division by a non-positive timestep ever happens). -/
theorem updateDrag_nonpositive_dt (w : World) (did : String) (b : Block)
    (mx my dt : ℚ) (hdrag : w.draggedBlockId = some did)
    (hfind : getBlockById w did = some b) (hdt : dt ≤ 0) :
    getBlockById (updateDrag w mx my dt) did =
      some { b with x := mx - w.dragOffsetX, y := my - w.dragOffsetY } := by
  have hdt' : ¬ dt > 0 := not_lt.mpr hdt
  simp only [updateDrag, hdrag, hfind]
  unfold getBlockById
  simp only
  rw [find?_updateFirstById _ _ _ (fun c => by simp [hdt'])]
  unfold getBlockById at hfind
  rw [hfind]
  simp [hdt']

/-- Witness for C9: a zero timestep on the dragging sample world. -/
theorem updateDrag_nonpositive_dt_witness :
    getBlockById (updateDrag draggingWorld 3 4 0) "A" =
      some { { sampleBlock with isDragging := true } with
             x := 3 - draggingWorld.dragOffsetX,
             y := 4 - draggingWorld.dragOffsetY } :=
  updateDrag_nonpositive_dt draggingWorld "A"
    { sampleBlock with isDragging := true } 3 4 0 rfl rfl le_rfl

/-! ## C4 -/

/-- C4: the SI-units `checkCollision` reports no contact exactly when the
per-axis overlap of the two rectangles is not strictly positive on at least
one axis (so merely touching edge-to-edge yields no collision), and whenever
a contact is returned both per-axis overlaps are strictly positive. -/
theorem checkCollision_none_iff (block1 block2 : Block) :
    (PhysicsSI.checkCollision block1 block2 = none ↔
      min ((getBounds block1).right - (getBounds block2).left)
          ((getBounds block2).right - (getBounds block1).left) ≤ 0 ∨
      min ((getBounds block1).bottom - (getBounds block2).top)
          ((getBounds block2).bottom - (getBounds block1).top) ≤ 0) ∧
    (∀ c, PhysicsSI.checkCollision block1 block2 = some c →
      0 < c.overlapX ∧ 0 < c.overlapY) := by
  simp only [PhysicsSI.checkCollision]
  split
  · next h => exact ⟨iff_of_true rfl h, fun c hc => Option.noConfusion hc⟩
  · next h =>
    have hpos := h
    push_neg at hpos
    refine ⟨iff_of_false (by simp) h, fun c hc => ?_⟩
    rw [Option.some.injEq] at hc
    rw [← hc]
    exact ⟨hpos.1, hpos.2⟩

/-- Witness for C4: two unit blocks touching exactly edge-to-edge produce no
collision. -/
theorem checkCollision_none_iff_witness :
    PhysicsSI.checkCollision sampleBlock
      { sampleBlock with id := "B", x := 2 } = none :=
  (checkCollision_none_iff sampleBlock
    { sampleBlock with id := "B", x := 2 }).1.mpr
    (Or.inl (by norm_num [getBounds, sampleBlock]))

/-! ## C2 -/

lemma si_separateBlocks_fst_static (b1 b2 : Block) (oX oY dX dY : ℚ)
    (h : b1.isStatic = true) :
    (PhysicsSI.separateBlocks b1 b2 oX oY dX dY).1 = b1 := by
  simp [PhysicsSI.separateBlocks, h]

lemma si_separateBlocks_snd_static (b1 b2 : Block) (oX oY dX dY : ℚ)
    (h : b2.isStatic = true) (h1 : b1.isStatic = false) :
    (PhysicsSI.separateBlocks b1 b2 oX oY dX dY).2 = b2 := by
  simp [PhysicsSI.separateBlocks, h, h1]

lemma si_applyImpulse_fst_static (b1 b2 : Block) (dX dY : ℚ)
    (h : b1.isStatic = true) :
    (PhysicsSI.applyImpulse b1 b2 dX dY).1 = b1 := by
  unfold PhysicsSI.applyImpulse
  have hg : (!b1.isStatic && !b1.isDragging) = false := by simp [h]
  simp only [hg, Bool.false_eq_true, if_false, apply_ite Prod.fst, ite_self]

lemma si_applyImpulse_snd_static (b1 b2 : Block) (dX dY : ℚ)
    (h : b2.isStatic = true) :
    (PhysicsSI.applyImpulse b1 b2 dX dY).2 = b2 := by
  unfold PhysicsSI.applyImpulse
  have hg : (!b2.isStatic && !b2.isDragging) = false := by simp [h]
  simp only [hg, Bool.false_eq_true, if_false, apply_ite Prod.snd, ite_self]

lemma si_applyFriction_fst_static (b1 b2 : Block) (oX oY : ℚ)
    (h : b1.isStatic = true) :
    (PhysicsSI.applyFriction b1 b2 oX oY).1 = b1 := by
  unfold PhysicsSI.applyFriction
  have hg : (!b1.isStatic && !b1.isDragging) = false := by simp [h]
  simp only [hg, Bool.false_eq_true, if_false, apply_ite Prod.fst, ite_self]

lemma si_applyFriction_snd_static (b1 b2 : Block) (oX oY : ℚ)
    (h : b2.isStatic = true) :
    (PhysicsSI.applyFriction b1 b2 oX oY).2 = b2 := by
  unfold PhysicsSI.applyFriction
  have hg : (!b2.isStatic && !b2.isDragging) = false := by simp [h]
  simp only [hg, Bool.false_eq_true, if_false, apply_ite Prod.snd, ite_self]

lemma px_resolveCollision_fst_static (b1 b2 : Block)
    (c : Option PhysicsPx.Collision) (h : b1.isStatic = true) :
    (PhysicsPx.resolveCollision b1 b2 c).1.x = b1.x ∧
    (PhysicsPx.resolveCollision b1 b2 c).1.y = b1.y ∧
    (PhysicsPx.resolveCollision b1 b2 c).1.vx = b1.vx ∧
    (PhysicsPx.resolveCollision b1 b2 c).1.vy = b1.vy := by
  rcases c with _ | c
  · exact ⟨rfl, rfl, rfl, rfl⟩
  · have hg : (!b1.isStatic && !b1.isDragging) = false := by simp [h]
    refine ⟨?_, ?_, ?_, ?_⟩ <;>
      simp only [PhysicsPx.resolveCollision, PhysicsPx.separateBlocks,
        PhysicsPx.applyFriction, PhysicsPx.handleSticking, h, hg,
        Bool.not_true, Bool.false_and, Bool.false_eq_true, if_false,
        apply_ite Prod.fst, apply_ite Prod.snd, apply_ite Block.x,
        apply_ite Block.y, apply_ite Block.vx, apply_ite Block.vy,
        ite_self]

lemma px_resolveCollision_snd_static (b1 b2 : Block)
    (c : Option PhysicsPx.Collision) (h : b2.isStatic = true) :
    (PhysicsPx.resolveCollision b1 b2 c).2.x = b2.x ∧
    (PhysicsPx.resolveCollision b1 b2 c).2.y = b2.y ∧
    (PhysicsPx.resolveCollision b1 b2 c).2.vx = b2.vx ∧
    (PhysicsPx.resolveCollision b1 b2 c).2.vy = b2.vy := by
  rcases c with _ | c
  · exact ⟨rfl, rfl, rfl, rfl⟩
  · have hg : (!b2.isStatic && !b2.isDragging) = false := by simp [h]
    refine ⟨?_, ?_, ?_, ?_⟩ <;>
      simp only [PhysicsPx.resolveCollision, PhysicsPx.separateBlocks,
        PhysicsPx.applyFriction, PhysicsPx.handleSticking, h, hg,
        Bool.not_true, Bool.false_and, Bool.false_eq_true, if_false,
        apply_ite Prod.fst, apply_ite Prod.snd, apply_ite Block.x,
        apply_ite Block.y, apply_ite Block.vx, apply_ite Block.vy,
        ite_self]

lemma si_resolveCollision_fst_static (b1 b2 : Block)
    (c : Option PhysicsSI.Collision) (h : b1.isStatic = true) :
    (PhysicsSI.resolveCollision b1 b2 c).1 = b1 := by
  rcases c with _ | c
  · rfl
  · simp only [PhysicsSI.resolveCollision]
    split
    · rfl
    · rw [si_separateBlocks_fst_static b1 b2 c.overlapX c.overlapY c.dirX
        c.dirY h]
      rw [si_applyImpulse_fst_static b1 _ c.dirX c.dirY h]
      exact si_applyFriction_fst_static b1 _ c.overlapX c.overlapY h

lemma si_resolveCollision_snd_static (b1 b2 : Block)
    (c : Option PhysicsSI.Collision) (h : b2.isStatic = true) :
    (PhysicsSI.resolveCollision b1 b2 c).2 = b2 := by
  rcases c with _ | c
  · rfl
  · simp only [PhysicsSI.resolveCollision]
    split
    · rfl
    · next hns =>
      have h1 : b1.isStatic = false := by
        simp only [h, Bool.and_true, Bool.not_eq_true] at hns
        exact hns
      rw [si_separateBlocks_snd_static b1 b2 c.overlapX c.overlapY c.dirX
        c.dirY h h1]
      rw [si_applyImpulse_snd_static _ b2 c.dirX c.dirY h]
      exact si_applyFriction_snd_static _ b2 c.overlapX c.overlapY h

/-- C2: a static block is invariant under collision resolution in both
physics modules: whatever the other block's mass and velocity, its `x`, `y`,
`vx`, `vy` are exactly unchanged (for the SI-units module the whole block
value is unchanged), and a both-static pair is ignored entirely (neither
block is mutated). -/
theorem resolveCollision_static_invariance (b1 b2 : Block)
    (c : Option PhysicsSI.Collision) (c' : Option PhysicsPx.Collision) :
    (b1.isStatic = true →
      (PhysicsSI.resolveCollision b1 b2 c).1 = b1 ∧
      ((PhysicsPx.resolveCollision b1 b2 c').1.x = b1.x ∧
       (PhysicsPx.resolveCollision b1 b2 c').1.y = b1.y ∧
       (PhysicsPx.resolveCollision b1 b2 c').1.vx = b1.vx ∧
       (PhysicsPx.resolveCollision b1 b2 c').1.vy = b1.vy)) ∧
    (b2.isStatic = true →
      (PhysicsSI.resolveCollision b1 b2 c).2 = b2 ∧
      ((PhysicsPx.resolveCollision b1 b2 c').2.x = b2.x ∧
       (PhysicsPx.resolveCollision b1 b2 c').2.y = b2.y ∧
       (PhysicsPx.resolveCollision b1 b2 c').2.vx = b2.vx ∧
       (PhysicsPx.resolveCollision b1 b2 c').2.vy = b2.vy)) ∧
    (b1.isStatic = true → b2.isStatic = true →
      PhysicsSI.resolveCollision b1 b2 c = (b1, b2) ∧
      PhysicsPx.resolveCollision b1 b2 c' = (b1, b2)) := by
  refine ⟨fun h => ⟨si_resolveCollision_fst_static b1 b2 c h,
      px_resolveCollision_fst_static b1 b2 c' h⟩,
    fun h => ⟨si_resolveCollision_snd_static b1 b2 c h,
      px_resolveCollision_snd_static b1 b2 c' h⟩,
    fun h1 h2 => ⟨?_, ?_⟩⟩
  · rcases c with _ | c
    · rfl
    · simp [PhysicsSI.resolveCollision, h1, h2]
  · rcases c' with _ | c'
    · rfl
    · simp [PhysicsPx.resolveCollision, h1, h2]

/-- Witness for C2: the falling block with its static base. -/
theorem resolveCollision_static_invariance_witness :
    (PhysicsSI.resolveCollision fallingBlock baseBlock
      (PhysicsSI.checkCollision fallingBlock baseBlock)).2 = baseBlock ∧
    (PhysicsPx.resolveCollision fallingBlock baseBlock
      (some ⟨-(3/5), -(4/5), 1/20⟩)).2.vy = baseBlock.vy := by
  have h := (resolveCollision_static_invariance fallingBlock baseBlock
    (PhysicsSI.checkCollision fallingBlock baseBlock)
    (some ⟨-(3/5), -(4/5), 1/20⟩)).2.1 (by rfl)
  exact ⟨h.1, h.2.2.2.2⟩

/-! ## C1 -/

/-- C1 (code bug): a block falling squarely onto another — horizontal overlap
(`1/2`) far larger than the vertical one (`1/20`) — is NOT resolved purely
vertically by either `resolveCollision` iteration present in the source.
The SI-units module separates on BOTH axes and shifts the falling block
horizontally by the full horizontal overlap (`x : 1 → 3/2`, far beyond the
`0.01` tolerance), even though its vertical velocity does invert
(`vy : 2 → -7/10`).  The pixel-units module pushes along the center-to-center
normal — here exactly `(-3/5, -4/5)`, since the centers differ by the 3-4-5
vector `(27/80, 36/80)` and `penetration = min(13/80, 1/20) = 1/20` — and so
shifts the falling block's `x` by `-12/625 ≈ -0.019`, also beyond tolerance.
This contradicts the repository's own test
`vertical collision separates on Y axis only`. -/
theorem resolveCollision_square_landing_not_vertical :
    PhysicsSI.checkCollision fallingBlock baseBlock =
      some ⟨1/2, 1/20, 1, -1⟩ ∧
    (PhysicsSI.resolveCollision fallingBlock baseBlock
        (PhysicsSI.checkCollision fallingBlock baseBlock)).1.x = 3/2 ∧
    ¬(|(PhysicsSI.resolveCollision fallingBlock baseBlock
          (PhysicsSI.checkCollision fallingBlock baseBlock)).1.x -
        fallingBlock.x| ≤ 1/100) ∧
    (PhysicsSI.resolveCollision fallingBlock baseBlock
        (PhysicsSI.checkCollision fallingBlock baseBlock)).1.vy = -(7/10) ∧
    (PhysicsPx.resolveCollision fallingBlockPx baseBlockPx
        (some ⟨-(3/5), -(4/5), 1/20⟩)).1.x = -(12/625) ∧
    ¬(|(PhysicsPx.resolveCollision fallingBlockPx baseBlockPx
          (some ⟨-(3/5), -(4/5), 1/20⟩)).1.x - fallingBlockPx.x| ≤ 1/100) := by
  norm_num [PhysicsSI.checkCollision, PhysicsSI.resolveCollision,
    PhysicsSI.separateBlocks, PhysicsSI.applyImpulse, PhysicsSI.applyFriction,
    PhysicsPx.resolveCollision, PhysicsPx.separateBlocks,
    PhysicsPx.applyFriction, PhysicsPx.handleSticking, getBounds, getCenter,
    getEffectiveBounciness, getEffectiveFriction, shouldStick, jsSign,
    fallingBlock, baseBlock, fallingBlockPx, baseBlockPx, sampleBlock,
    abs_le]

/-! ## C5 -/

/-- Closed form of one `constrainToWorld` pass for a non-static block that
fits inside the world (so opposite walls cannot both be violated). -/
lemma constrainToWorld_char (b : Block) (W H : ℚ) (hstat : b.isStatic = false)
    (hw : b.width ≤ W) (hh : b.height ≤ H) :
    PhysicsSI.constrainToWorld b W H =
      { b with
        x := if b.x < 0 then 0
          else if W < b.x + b.width then W - b.width else b.x,
        y := if H < b.y + b.height then H - b.height
          else if b.y < 0 then 0 else b.y,
        vx := (if H < b.y + b.height then 1 - b.friction * (1/10) else 1) *
          (if b.x < 0 then |b.vx| * b.bounciness
           else if W < b.x + b.width then -|b.vx| * b.bounciness else b.vx),
        vy := if H < b.y + b.height then -|b.vy| * b.bounciness
          else if b.y < 0 then |b.vy| * b.bounciness else b.vy } := by
  unfold PhysicsSI.constrainToWorld
  simp only [hstat, Bool.false_eq_true, if_false, getBounds, gt_iff_lt]
  by_cases hL : b.x < 0 <;> by_cases hR : W < b.x + b.width <;>
    by_cases hF : H < b.y + b.height <;> by_cases hC : b.y < 0 <;>
    first
      | exact absurd hR (by linarith)
      | exact absurd hC (by linarith)
      | (simp [hL, hR, hF, hC] <;> (try exact hstat) <;>
          (try exact ⟨by ring, hstat⟩) <;> (try ring_nf) <;>
          (try simp [hstat]) <;> (try (conv_rhs => rw [← hstat])))

/-- C5 (amended; the claim as stated fails, see
`constrainToWorld_claim_counterexample`): provided the block also FITS in the
world (width and height at most the world's), one `constrainToWorld` pass
puts its rectangle inside `[0,W] × [0,H]`; the velocity component along a
violated axis is set to the block's own bounciness times that component's
previous magnitude, directed into the world (so its sign flips exactly when
the block was moving towards the violated boundary), and a floor violation
additionally multiplies the horizontal velocity by `1 - friction/10`. -/
theorem constrainToWorld_amended (b : Block) (W H : ℚ)
    (hstat : b.isStatic = false) (hw : b.width ≤ W) (hh : b.height ≤ H) :
    (0 ≤ (PhysicsSI.constrainToWorld b W H).x ∧
     (PhysicsSI.constrainToWorld b W H).x +
       (PhysicsSI.constrainToWorld b W H).width ≤ W ∧
     0 ≤ (PhysicsSI.constrainToWorld b W H).y ∧
     (PhysicsSI.constrainToWorld b W H).y +
       (PhysicsSI.constrainToWorld b W H).height ≤ H) ∧
    (∃ vmid : ℚ,
      (b.x < 0 → vmid = |b.vx| * b.bounciness) ∧
      (b.x + b.width > W → vmid = -|b.vx| * b.bounciness) ∧
      (¬b.x < 0 → ¬b.x + b.width > W → vmid = b.vx) ∧
      (b.y + b.height > H →
        (PhysicsSI.constrainToWorld b W H).vy = -|b.vy| * b.bounciness ∧
        (PhysicsSI.constrainToWorld b W H).vx =
          vmid * (1 - b.friction * (1/10))) ∧
      (b.y < 0 →
        (PhysicsSI.constrainToWorld b W H).vy = |b.vy| * b.bounciness ∧
        (PhysicsSI.constrainToWorld b W H).vx = vmid) ∧
      (¬b.y + b.height > H → ¬b.y < 0 →
        (PhysicsSI.constrainToWorld b W H).vy = b.vy ∧
        (PhysicsSI.constrainToWorld b W H).vx = vmid)) := by
  rw [constrainToWorld_char b W H hstat hw hh]
  constructor
  · refine ⟨?_, ?_, ?_, ?_⟩ <;> simp only <;> split_ifs <;>
      first | linarith | simp | (push_neg at *; linarith)
  · refine ⟨if b.x < 0 then |b.vx| * b.bounciness
      else if W < b.x + b.width then -|b.vx| * b.bounciness else b.vx,
      fun hL => by simp [hL],
      fun hR => by
        have hL : ¬b.x < 0 := by rw [gt_iff_lt] at hR; intro hL; linarith
        simp [hL, gt_iff_lt.mp hR],
      fun hL hR => by
        rw [gt_iff_lt] at hR
        simp [hL, hR],
      fun hF => by
        rw [gt_iff_lt] at hF
        constructor
        · simp [hF]
        · simp only [hF, if_true, if_pos]
          ring,
      fun hC => by
        have hF : ¬H < b.y + b.height := by intro hF; linarith
        constructor
        · simp [hF, hC]
        · simp [hF],
      fun hF hC => by
        rw [gt_iff_lt] at hF
        constructor
        · simp [hF, hC]
        · simp [hF]⟩

/-- C5 counterexample: the claim as stated is false on the code.  A block
wider than the world is still outside the bounds after one pass
(`constrainToWorld` computes bounds once up front, so the right-wall branch
uses a stale rectangle and pushes the block back out through the left wall);
and the velocity on a violated axis does not generally flip sign — a block
past the left wall moving rightwards at `5` keeps a positive `vx` of `5/2`
instead of the sign-flipped `-5/2`. -/
theorem constrainToWorld_claim_counterexample :
    (PhysicsSI.constrainToWorld oversizedBlock 4 6).x = -6 ∧
    (PhysicsSI.constrainToWorld oversizedBlock 4 6).x < 0 ∧
    (PhysicsSI.constrainToWorld wallBlock 4 6).vx = 5/2 ∧
    (PhysicsSI.constrainToWorld wallBlock 4 6).vx ≠ -(5 * (1/2) : ℚ) := by
  norm_num [PhysicsSI.constrainToWorld, getBounds, oversizedBlock, wallBlock,
    sampleBlock]

/-- Witness for C5 (amended) at a concrete corner case: through the left
wall and the floor at once. -/
theorem constrainToWorld_amended_witness :
    0 ≤ (PhysicsSI.constrainToWorld cornerBlock 4 6).x ∧
    (PhysicsSI.constrainToWorld cornerBlock 4 6).x +
      (PhysicsSI.constrainToWorld cornerBlock 4 6).width ≤ 4 ∧
    0 ≤ (PhysicsSI.constrainToWorld cornerBlock 4 6).y ∧
    (PhysicsSI.constrainToWorld cornerBlock 4 6).y +
      (PhysicsSI.constrainToWorld cornerBlock 4 6).height ≤ 6 :=
  (constrainToWorld_amended cornerBlock 4 6 rfl
    (by norm_num [cornerBlock, sampleBlock])
    (by norm_num [cornerBlock, sampleBlock])).1

/-! ## C3 -/

lemma abs_impulse_scale (rv e s T : ℚ) (he0 : 0 ≤ e) (he1 : e ≤ 1)
    (hs0 : 0 ≤ s) (hsT : s ≤ T) (hT : 0 < T) :
    |rv + -(1 + e) * rv / T * s| ≤ |rv| := by
  have key : rv + -(1 + e) * rv / T * s = rv * (1 - (1 + e) * s / T) := by
    field_simp
    ring
  rw [key, abs_mul]
  have h0 : 0 ≤ (1 + e) * s / T := by positivity
  have h2 : (1 + e) * s / T ≤ 2 := by
    rw [div_le_iff hT]
    nlinarith
  have habs : |1 - (1 + e) * s / T| ≤ 1 := abs_le.mpr ⟨by linarith, by linarith⟩
  calc |rv| * |1 - (1 + e) * s / T| ≤ |rv| * 1 :=
        mul_le_mul_of_nonneg_left habs (abs_nonneg rv)
    _ = |rv| := mul_one _

lemma guarded_impulse_spec (v1 v2 e i1 i2 : ℚ) (g1 g2 : Bool)
    (he0 : 0 ≤ e) (he1 : e ≤ 1) (hi1 : 0 ≤ i1) (hi2 : 0 ≤ i2)
    (hT : 0 < i1 + i2) :
    |(if g1 then v1 + -(1 + e) * (v1 - v2) / (i1 + i2) * i1 else v1) -
      (if g2 then v2 - -(1 + e) * (v1 - v2) / (i1 + i2) * i2 else v2)| ≤
      |v1 - v2| := by
  rcases g1 <;> rcases g2 <;>
    simp only [Bool.false_eq_true, if_false, if_true]
  · exact le_rfl
  · convert abs_impulse_scale (v1 - v2) e i2 (i1 + i2) he0 he1 hi2
      (by linarith) hT using 2
    ring
  · convert abs_impulse_scale (v1 - v2) e i1 (i1 + i2) he0 he1 hi1
      (by linarith) hT using 2
    ring
  · convert abs_impulse_scale (v1 - v2) e (i1 + i2) (i1 + i2) he0 he1
      (by linarith) le_rfl hT using 2
    ring

lemma si_separateBlocks_shape (b1 b2 : Block) (oX oY dX dY : ℚ) :
    ∃ x1 y1 x2 y2,
      PhysicsSI.separateBlocks b1 b2 oX oY dX dY =
        ({ b1 with x := x1, y := y1 }, { b2 with x := x2, y := y2 }) := by
  unfold PhysicsSI.separateBlocks
  split_ifs <;> exact ⟨_, _, _, _, rfl⟩

lemma px_separateBlocks_shape (b1 b2 : Block) (nx ny pen : ℚ) :
    ∃ x1 y1 x2 y2,
      PhysicsPx.separateBlocks b1 b2 nx ny pen =
        ({ b1 with x := x1, y := y1 }, { b2 with x := x2, y := y2 }) := by
  unfold PhysicsPx.separateBlocks
  dsimp only
  split_ifs <;> exact ⟨_, _, _, _, rfl⟩

lemma px_applyFriction_normal (a b : Block) (nx ny : ℚ) :
    ((PhysicsPx.applyFriction a b nx ny).1.vx -
       (PhysicsPx.applyFriction a b nx ny).2.vx) * nx +
      ((PhysicsPx.applyFriction a b nx ny).1.vy -
        (PhysicsPx.applyFriction a b nx ny).2.vy) * ny =
      (a.vx - b.vx) * nx + (a.vy - b.vy) * ny := by
  unfold PhysicsPx.applyFriction
  split_ifs <;> simp <;> ring

lemma si_applyFriction_vx_of_lt (a b : Block) (oX oY : ℚ) (h : oX < oY) :
    (PhysicsSI.applyFriction a b oX oY).1.vx = a.vx ∧
    (PhysicsSI.applyFriction a b oX oY).2.vx = b.vx := by
  unfold PhysicsSI.applyFriction
  simp only [h, if_true]
  constructor <;> split <;> rfl

lemma si_applyFriction_vy_of_not_lt (a b : Block) (oX oY : ℚ)
    (h : ¬oX < oY) :
    (PhysicsSI.applyFriction a b oX oY).1.vy = a.vy ∧
    (PhysicsSI.applyFriction a b oX oY).2.vy = b.vy := by
  unfold PhysicsSI.applyFriction
  simp only [h, if_false]
  constructor <;> split <;> rfl

lemma si_applyImpulse_vx (b1 b2 : Block) (dX dY : ℚ)
    (hm1 : 0 < b1.mass) (hm2 : 0 < b2.mass)
    (he0 : 0 ≤ getEffectiveBounciness b1 b2)
    (he1 : getEffectiveBounciness b1 b2 ≤ 1) :
    |(PhysicsSI.applyImpulse b1 b2 dX dY).1.vx -
        (PhysicsSI.applyImpulse b1 b2 dX dY).2.vx| ≤ |b1.vx - b2.vx| ∧
    (0 ≤ (b1.vx - b2.vx) * dX →
      (PhysicsSI.applyImpulse b1 b2 dX dY).1.vx = b1.vx ∧
      (PhysicsSI.applyImpulse b1 b2 dX dY).2.vx = b2.vx) := by
  unfold PhysicsSI.applyImpulse
  dsimp only
  by_cases hT : (if b1.isStatic then (0:ℚ) else 1 / b1.mass) +
      (if b2.isStatic then (0:ℚ) else 1 / b2.mass) = 0
  · rw [if_pos hT]
    exact ⟨le_rfl, fun _ => ⟨rfl, rfl⟩⟩
  · have hi1 : 0 ≤ (if b1.isStatic then (0:ℚ) else 1 / b1.mass) := by
      split
      · exact le_rfl
      · positivity
    have hi2 : 0 ≤ (if b2.isStatic then (0:ℚ) else 1 / b2.mass) := by
      split
      · exact le_rfl
      · positivity
    have hTpos : 0 < (if b1.isStatic then (0:ℚ) else 1 / b1.mass) +
        (if b2.isStatic then (0:ℚ) else 1 / b2.mass) :=
      lt_of_le_of_ne (by linarith) (Ne.symm hT)
    by_cases hx : (b1.vx - b2.vx) * dX < 0
    · simp only [hT, if_false, hx, if_true, apply_ite Prod.fst,
        apply_ite Prod.snd, apply_ite Block.vx, ite_self]
      refine ⟨?_, fun hge => absurd hx (not_lt.mpr hge)⟩
      exact guarded_impulse_spec b1.vx b2.vx (getEffectiveBounciness b1 b2)
        _ _ _ _ he0 he1 hi1 hi2 hTpos
    · simp only [hT, if_false, hx, apply_ite Prod.fst, apply_ite Prod.snd,
        apply_ite Block.vx, ite_self]
      exact ⟨le_rfl, fun _ => by simp⟩

lemma si_applyImpulse_vy (b1 b2 : Block) (dX dY : ℚ)
    (hm1 : 0 < b1.mass) (hm2 : 0 < b2.mass)
    (he0 : 0 ≤ getEffectiveBounciness b1 b2)
    (he1 : getEffectiveBounciness b1 b2 ≤ 1) :
    |(PhysicsSI.applyImpulse b1 b2 dX dY).1.vy -
        (PhysicsSI.applyImpulse b1 b2 dX dY).2.vy| ≤ |b1.vy - b2.vy| ∧
    (0 ≤ (b1.vy - b2.vy) * dY →
      (PhysicsSI.applyImpulse b1 b2 dX dY).1.vy = b1.vy ∧
      (PhysicsSI.applyImpulse b1 b2 dX dY).2.vy = b2.vy) := by
  unfold PhysicsSI.applyImpulse
  dsimp only
  by_cases hT : (if b1.isStatic then (0:ℚ) else 1 / b1.mass) +
      (if b2.isStatic then (0:ℚ) else 1 / b2.mass) = 0
  · rw [if_pos hT]
    exact ⟨le_rfl, fun _ => ⟨rfl, rfl⟩⟩
  · have hi1 : 0 ≤ (if b1.isStatic then (0:ℚ) else 1 / b1.mass) := by
      split
      · exact le_rfl
      · positivity
    have hi2 : 0 ≤ (if b2.isStatic then (0:ℚ) else 1 / b2.mass) := by
      split
      · exact le_rfl
      · positivity
    have hTpos : 0 < (if b1.isStatic then (0:ℚ) else 1 / b1.mass) +
        (if b2.isStatic then (0:ℚ) else 1 / b2.mass) :=
      lt_of_le_of_ne (by linarith) (Ne.symm hT)
    simp only [hT, if_false, apply_ite Prod.fst, apply_ite Prod.snd,
      apply_ite Block.vy, apply_ite Block.isStatic,
      apply_ite Block.isDragging, ite_self]
    by_cases hy : (b1.vy - b2.vy) * dY < 0
    · simp only [hy, if_true]
      refine ⟨?_, fun hge => absurd hy (not_lt.mpr hge)⟩
      exact guarded_impulse_spec b1.vy b2.vy (getEffectiveBounciness b1 b2)
        _ _ _ _ he0 he1 hi1 hi2 hTpos
    · simp only [hy, if_false]
      exact ⟨le_rfl, fun _ => by simp⟩

lemma si_resolveCollision_energy (b1 b2 : Block) (c : PhysicsSI.Collision)
    (hm1 : 0 < b1.mass) (hm2 : 0 < b2.mass)
    (he0 : 0 ≤ getEffectiveBounciness b1 b2)
    (he1 : getEffectiveBounciness b1 b2 ≤ 1) :
    (c.overlapX < c.overlapY →
      |(PhysicsSI.resolveCollision b1 b2 (some c)).1.vx -
          (PhysicsSI.resolveCollision b1 b2 (some c)).2.vx| ≤
        |b1.vx - b2.vx| ∧
      (0 ≤ (b1.vx - b2.vx) * c.dirX →
        (PhysicsSI.resolveCollision b1 b2 (some c)).1.vx -
            (PhysicsSI.resolveCollision b1 b2 (some c)).2.vx =
          b1.vx - b2.vx)) ∧
    (¬c.overlapX < c.overlapY →
      |(PhysicsSI.resolveCollision b1 b2 (some c)).1.vy -
          (PhysicsSI.resolveCollision b1 b2 (some c)).2.vy| ≤
        |b1.vy - b2.vy| ∧
      (0 ≤ (b1.vy - b2.vy) * c.dirY →
        (PhysicsSI.resolveCollision b1 b2 (some c)).1.vy -
            (PhysicsSI.resolveCollision b1 b2 (some c)).2.vy =
          b1.vy - b2.vy)) := by
  simp only [PhysicsSI.resolveCollision]
  split
  · exact ⟨fun _ => ⟨le_rfl, fun _ => rfl⟩, fun _ => ⟨le_rfl, fun _ => rfl⟩⟩
  · obtain ⟨x1, y1, x2, y2, hsep⟩ :=
      si_separateBlocks_shape b1 b2 c.overlapX c.overlapY c.dirX c.dirY
    rw [hsep]
    dsimp only
    constructor
    · intro hov
      have hfr := si_applyFriction_vx_of_lt
        (PhysicsSI.applyImpulse { b1 with x := x1, y := y1 }
          { b2 with x := x2, y := y2 } c.dirX c.dirY).1
        (PhysicsSI.applyImpulse { b1 with x := x1, y := y1 }
          { b2 with x := x2, y := y2 } c.dirX c.dirY).2
        c.overlapX c.overlapY hov
      have himp := si_applyImpulse_vx { b1 with x := x1, y := y1 }
        { b2 with x := x2, y := y2 } c.dirX c.dirY hm1 hm2 he0 he1
      rw [hfr.1, hfr.2]
      refine ⟨himp.1, fun hge => ?_⟩
      have h2 := himp.2 hge
      rw [h2.1, h2.2]
    · intro hov
      have hfr := si_applyFriction_vy_of_not_lt
        (PhysicsSI.applyImpulse { b1 with x := x1, y := y1 }
          { b2 with x := x2, y := y2 } c.dirX c.dirY).1
        (PhysicsSI.applyImpulse { b1 with x := x1, y := y1 }
          { b2 with x := x2, y := y2 } c.dirX c.dirY).2
        c.overlapX c.overlapY hov
      have himp := si_applyImpulse_vy { b1 with x := x1, y := y1 }
        { b2 with x := x2, y := y2 } c.dirX c.dirY hm1 hm2 he0 he1
      rw [hfr.1, hfr.2]
      refine ⟨himp.1, fun hge => ?_⟩
      have h2 := himp.2 hge
      rw [h2.1, h2.2]

lemma px_normal_component_le (rv e s T nx ny : ℚ)
    (hunit : nx ^ 2 + ny ^ 2 = 1) (he0 : 0 ≤ e) (he1 : e ≤ 1)
    (hs0 : 0 ≤ s) (hsT : s ≤ T) (hT : 0 < T) (A : ℚ)
    (hA : A = rv + -(1 + e) * rv / T * (s * (nx ^ 2 + ny ^ 2))) :
    |A| ≤ |rv| := by
  rw [hA, hunit, mul_one]
  exact abs_impulse_scale rv e s T he0 he1 hs0 hsT hT

lemma px_handleSticking_kinematics (a b : Block) :
    ((PhysicsPx.handleSticking a b).1.x = a.x ∧
     (PhysicsPx.handleSticking a b).1.y = a.y ∧
     (PhysicsPx.handleSticking a b).1.vx = a.vx ∧
     (PhysicsPx.handleSticking a b).1.vy = a.vy) ∧
    ((PhysicsPx.handleSticking a b).2.x = b.x ∧
     (PhysicsPx.handleSticking a b).2.y = b.y ∧
     (PhysicsPx.handleSticking a b).2.vx = b.vx ∧
     (PhysicsPx.handleSticking a b).2.vy = b.vy) := by
  refine ⟨⟨?_, ?_, ?_, ?_⟩, ⟨?_, ?_, ?_, ?_⟩⟩ <;>
    (unfold PhysicsPx.handleSticking; dsimp only; split <;> rfl)

lemma px_tail_normal (a b : Block) (nx ny : ℚ) :
    ((if shouldStick (PhysicsPx.applyFriction a b nx ny).1
          (PhysicsPx.applyFriction a b nx ny).2 then
        PhysicsPx.handleSticking (PhysicsPx.applyFriction a b nx ny).1
          (PhysicsPx.applyFriction a b nx ny).2
      else PhysicsPx.applyFriction a b nx ny).1.vx -
      (if shouldStick (PhysicsPx.applyFriction a b nx ny).1
          (PhysicsPx.applyFriction a b nx ny).2 then
        PhysicsPx.handleSticking (PhysicsPx.applyFriction a b nx ny).1
          (PhysicsPx.applyFriction a b nx ny).2
      else PhysicsPx.applyFriction a b nx ny).2.vx) * nx +
    ((if shouldStick (PhysicsPx.applyFriction a b nx ny).1
          (PhysicsPx.applyFriction a b nx ny).2 then
        PhysicsPx.handleSticking (PhysicsPx.applyFriction a b nx ny).1
          (PhysicsPx.applyFriction a b nx ny).2
      else PhysicsPx.applyFriction a b nx ny).1.vy -
      (if shouldStick (PhysicsPx.applyFriction a b nx ny).1
          (PhysicsPx.applyFriction a b nx ny).2 then
        PhysicsPx.handleSticking (PhysicsPx.applyFriction a b nx ny).1
          (PhysicsPx.applyFriction a b nx ny).2
      else PhysicsPx.applyFriction a b nx ny).2.vy) * ny =
    (a.vx - b.vx) * nx + (a.vy - b.vy) * ny := by
  split
  · have hk := px_handleSticking_kinematics
      (PhysicsPx.applyFriction a b nx ny).1
      (PhysicsPx.applyFriction a b nx ny).2
    rw [hk.1.2.2.1, hk.1.2.2.2, hk.2.2.2.1, hk.2.2.2.2]
    exact px_applyFriction_normal a b nx ny
  · exact px_applyFriction_normal a b nx ny

lemma px_resolveCollision_energy (b1 b2 : Block) (nx ny pen : ℚ)
    (hm1 : 0 < b1.mass) (hm2 : 0 < b2.mass)
    (hunit : nx ^ 2 + ny ^ 2 = 1)
    (he0 : 0 ≤ getEffectiveBounciness b1 b2)
    (he1 : getEffectiveBounciness b1 b2 ≤ 1) :
    |((PhysicsPx.resolveCollision b1 b2 (some ⟨nx, ny, pen⟩)).1.vx -
        (PhysicsPx.resolveCollision b1 b2 (some ⟨nx, ny, pen⟩)).2.vx) * nx +
      ((PhysicsPx.resolveCollision b1 b2 (some ⟨nx, ny, pen⟩)).1.vy -
        (PhysicsPx.resolveCollision b1 b2 (some ⟨nx, ny, pen⟩)).2.vy) * ny| ≤
      |(b1.vx - b2.vx) * nx + (b1.vy - b2.vy) * ny| ∧
    (0 < (b1.vx - b2.vx) * nx + (b1.vy - b2.vy) * ny →
      (PhysicsPx.resolveCollision b1 b2 (some ⟨nx, ny, pen⟩)).1.vx = b1.vx ∧
      (PhysicsPx.resolveCollision b1 b2 (some ⟨nx, ny, pen⟩)).1.vy = b1.vy ∧
      (PhysicsPx.resolveCollision b1 b2 (some ⟨nx, ny, pen⟩)).2.vx = b2.vx ∧
      (PhysicsPx.resolveCollision b1 b2 (some ⟨nx, ny, pen⟩)).2.vy = b2.vy) := by
  simp only [PhysicsPx.resolveCollision]
  split
  · exact ⟨le_rfl, fun _ => ⟨rfl, rfl, rfl, rfl⟩⟩
  · next hns =>
    obtain ⟨x1, y1, x2, y2, hsep⟩ := px_separateBlocks_shape b1 b2 nx ny pen
    rw [hsep]
    simp only [getEffectiveBounciness]
    have hi1 : 0 ≤ (if b1.isStatic = true then (0:ℚ) else 1 / b1.mass) := by
      split
      · exact le_rfl
      · positivity
    have hi2 : 0 ≤ (if b2.isStatic = true then (0:ℚ) else 1 / b2.mass) := by
      split
      · exact le_rfl
      · positivity
    have hTpos : 0 < (if b1.isStatic = true then (0:ℚ) else 1 / b1.mass) +
        (if b2.isStatic = true then (0:ℚ) else 1 / b2.mass) := by
      cases h1 : b1.isStatic with
      | false =>
        have hp : (0:ℚ) < 1 / b1.mass := by positivity
        simp only [h1, Bool.false_eq_true, if_false]
        linarith
      | true =>
        have h2 : b2.isStatic = false := by
          cases h2 : b2.isStatic
          · rfl
          · exact absurd (by rw [h1, h2]; rfl) hns
        have hp : (0:ℚ) < 1 / b2.mass := by positivity
        simp only [h1, h2, if_true, Bool.false_eq_true, if_false]
        linarith
    split
    · exact ⟨le_rfl, fun _ => ⟨rfl, rfl, rfl, rfl⟩⟩
    · next hnpos =>
      rw [if_neg (ne_of_gt hTpos)]
      refine ⟨?_, fun hpos => absurd hpos hnpos⟩
      rw [px_tail_normal]
      by_cases hg1 : (!b1.isStatic && !b1.isDragging) = true
      · have hs1 : b1.isStatic = false := by
          cases h1 : b1.isStatic
          · rfl
          · rw [h1] at hg1; simp at hg1
        by_cases hg2 : (!b2.isStatic && !b2.isDragging) = true
        · have hs2 : b2.isStatic = false := by
            cases h2 : b2.isStatic
            · rfl
            · rw [h2] at hg2; simp at hg2
          have hsT : 1 / b1.mass + 1 / b2.mass ≤
              (if b1.isStatic = true then (0:ℚ) else 1 / b1.mass) +
              (if b2.isStatic = true then (0:ℚ) else 1 / b2.mass) := by
            simp only [hs1, hs2, Bool.false_eq_true, if_false]
            exact le_rfl
          rw [if_pos hg1, if_pos hg2]
          dsimp only
          exact px_normal_component_le
            ((b1.vx - b2.vx) * nx + (b1.vy - b2.vy) * ny)
            ((b1.bounciness + b2.bounciness) / 2)
            (1 / b1.mass + 1 / b2.mass) _ nx ny hunit he0 he1
            (by positivity) hsT hTpos _ (by ring)
        · have hsT : 1 / b1.mass ≤
              (if b1.isStatic = true then (0:ℚ) else 1 / b1.mass) +
              (if b2.isStatic = true then (0:ℚ) else 1 / b2.mass) := by
            simp only [hs1, Bool.false_eq_true, if_false]
            exact le_add_of_nonneg_right hi2
          rw [if_pos hg1, if_neg hg2]
          dsimp only
          exact px_normal_component_le
            ((b1.vx - b2.vx) * nx + (b1.vy - b2.vy) * ny)
            ((b1.bounciness + b2.bounciness) / 2) (1 / b1.mass) _ nx ny
            hunit he0 he1 (by positivity) hsT hTpos _ (by ring)
      · by_cases hg2 : (!b2.isStatic && !b2.isDragging) = true
        · have hs2 : b2.isStatic = false := by
            cases h2 : b2.isStatic
            · rfl
            · rw [h2] at hg2; simp at hg2
          have hsT : 1 / b2.mass ≤
              (if b1.isStatic = true then (0:ℚ) else 1 / b1.mass) +
              (if b2.isStatic = true then (0:ℚ) else 1 / b2.mass) := by
            simp only [hs2, Bool.false_eq_true, if_false]
            exact le_add_of_nonneg_left hi1
          rw [if_neg hg1, if_pos hg2]
          dsimp only
          exact px_normal_component_le
            ((b1.vx - b2.vx) * nx + (b1.vy - b2.vy) * ny)
            ((b1.bounciness + b2.bounciness) / 2) (1 / b2.mass) _ nx ny
            hunit he0 he1 (by positivity) hsT hTpos _ (by ring)
        · rw [if_neg hg1, if_neg hg2]

/-- C3: with effective bounciness in `[0, 1]`, collision resolution never
amplifies the relative speed along the separation axis.  Pixel-units module
(separation axis = the unit contact normal): the post-call relative speed
along the normal is at most the pre-call one, and a pair whose relative
velocity already separates along the normal receives no impulse at all (all
four velocity components are untouched).  SI-units module (separation axis =
the smaller-overlap axis): the relative speed along that axis is not
amplified, and a pair already separating along it keeps its relative
velocity on that axis exactly (no normal impulse on the separation axis; the
module's independent impulse for the other axis acts only tangentially). -/
theorem resolveCollision_energy_nonamplification (b1 b2 : Block)
    (nx ny pen : ℚ) (c : PhysicsSI.Collision)
    (hm1 : 0 < b1.mass) (hm2 : 0 < b2.mass)
    (hunit : nx ^ 2 + ny ^ 2 = 1)
    (he0 : 0 ≤ getEffectiveBounciness b1 b2)
    (he1 : getEffectiveBounciness b1 b2 ≤ 1) :
    (|((PhysicsPx.resolveCollision b1 b2 (some ⟨nx, ny, pen⟩)).1.vx -
         (PhysicsPx.resolveCollision b1 b2 (some ⟨nx, ny, pen⟩)).2.vx) * nx +
       ((PhysicsPx.resolveCollision b1 b2 (some ⟨nx, ny, pen⟩)).1.vy -
         (PhysicsPx.resolveCollision b1 b2 (some ⟨nx, ny, pen⟩)).2.vy) * ny| ≤
       |(b1.vx - b2.vx) * nx + (b1.vy - b2.vy) * ny| ∧
     (0 < (b1.vx - b2.vx) * nx + (b1.vy - b2.vy) * ny →
       (PhysicsPx.resolveCollision b1 b2 (some ⟨nx, ny, pen⟩)).1.vx = b1.vx ∧
       (PhysicsPx.resolveCollision b1 b2 (some ⟨nx, ny, pen⟩)).1.vy = b1.vy ∧
       (PhysicsPx.resolveCollision b1 b2 (some ⟨nx, ny, pen⟩)).2.vx = b2.vx ∧
       (PhysicsPx.resolveCollision b1 b2
         (some ⟨nx, ny, pen⟩)).2.vy = b2.vy)) ∧
    ((c.overlapX < c.overlapY →
       |(PhysicsSI.resolveCollision b1 b2 (some c)).1.vx -
           (PhysicsSI.resolveCollision b1 b2 (some c)).2.vx| ≤
         |b1.vx - b2.vx| ∧
       (0 ≤ (b1.vx - b2.vx) * c.dirX →
         (PhysicsSI.resolveCollision b1 b2 (some c)).1.vx -
             (PhysicsSI.resolveCollision b1 b2 (some c)).2.vx =
           b1.vx - b2.vx)) ∧
     (¬c.overlapX < c.overlapY →
       |(PhysicsSI.resolveCollision b1 b2 (some c)).1.vy -
           (PhysicsSI.resolveCollision b1 b2 (some c)).2.vy| ≤
         |b1.vy - b2.vy| ∧
       (0 ≤ (b1.vy - b2.vy) * c.dirY →
         (PhysicsSI.resolveCollision b1 b2 (some c)).1.vy -
             (PhysicsSI.resolveCollision b1 b2 (some c)).2.vy =
           b1.vy - b2.vy))) :=
  ⟨px_resolveCollision_energy b1 b2 nx ny pen hm1 hm2 hunit he0 he1,
   si_resolveCollision_energy b1 b2 c hm1 hm2 he0 he1⟩

/-- Witness for C3: the falling block landing on its static base (SI
separation axis = Y, pixel-units normal = `(0, -1)`). -/
theorem resolveCollision_energy_nonamplification_witness :
    |(PhysicsSI.resolveCollision fallingBlock baseBlock
        (some ⟨1/2, 1/20, 1, -1⟩)).1.vy -
      (PhysicsSI.resolveCollision fallingBlock baseBlock
        (some ⟨1/2, 1/20, 1, -1⟩)).2.vy| ≤
      |fallingBlock.vy - baseBlock.vy| := by
  have h := (resolveCollision_energy_nonamplification fallingBlock baseBlock
    0 (-1) (1/20) ⟨1/2, 1/20, 1, -1⟩
    (by norm_num [fallingBlock, sampleBlock])
    (by norm_num [baseBlock, sampleBlock])
    (by norm_num)
    (by norm_num [getEffectiveBounciness, fallingBlock, baseBlock,
      sampleBlock])
    (by norm_num [getEffectiveBounciness, fallingBlock, baseBlock,
      sampleBlock])).2.2 (by norm_num)
  exact h.1

/-! ## C6: the stack traversal -/

lemma foldl_eq_foldChildren (fuel : Nat) (world : World) (A : List Block)
    (acc : List Block × List String) :
    A.foldl (fun acc above =>
      let s := findStackAboveF fuel world above acc.2
      (acc.1 ++ s.1, s.2)) acc = foldChildren fuel world A acc := by
  induction A generalizing acc with
  | nil => rfl
  | cons a as ih =>
    simp only [List.foldl_cons, foldChildren]
    exact ih _

lemma findStackAboveF_succ (fuel : Nat) (world : World) (block : Block)
    (V : List String) :
    findStackAboveF (fuel + 1) world block V =
      if block.id ∈ V then ([], V)
      else
        (findBlocksDirectlyAbove world block ++
          (foldChildren fuel world (findBlocksDirectlyAbove world block)
            ([], block.id :: V)).1,
         (foldChildren fuel world (findBlocksDirectlyAbove world block)
            ([], block.id :: V)).2) := by
  by_cases h : block.id ∈ V
  · simp only [findStackAboveF, if_pos h]
  · simp only [findStackAboveF, if_neg h]
    rw [foldl_eq_foldChildren]

lemma findStackAboveF_of_mem (fuel : Nat) (world : World) (block : Block)
    (V : List String) (h : block.id ∈ V) :
    findStackAboveF fuel world block V = ([], V) := by
  cases fuel with
  | zero => rfl
  | succ fuel => rw [findStackAboveF_succ, if_pos h]

lemma findStackAboveF_visited_extends :
    ∀ (fuel : Nat) (world : World) (block : Block) (V : List String),
      ∃ L, (findStackAboveF fuel world block V).2 = L ++ V := by
  intro fuel
  induction fuel with
  | zero => exact fun world block V => ⟨[], rfl⟩
  | succ fuel ih =>
    intro world block V
    rw [findStackAboveF_succ]
    by_cases h : block.id ∈ V
    · rw [if_pos h]
      exact ⟨[], rfl⟩
    · rw [if_neg h]
      have hfold : ∀ (A : List Block) (S : List Block) (W : List String),
          ∃ L, (foldChildren fuel world A (S, W)).2 = L ++ W := by
        intro A
        induction A with
        | nil => exact fun S W => ⟨[], rfl⟩
        | cons a as ihA =>
          intro S W
          simp only [foldChildren]
          obtain ⟨L2, h2⟩ := ihA (S ++ (findStackAboveF fuel world a W).1)
            (findStackAboveF fuel world a W).2
          obtain ⟨L1, h1⟩ := ih world a W
          exact ⟨L2 ++ L1, by rw [h2, h1, List.append_assoc]⟩
      obtain ⟨L, hL⟩ := hfold (findBlocksDirectlyAbove world block) []
        (block.id :: V)
      exact ⟨L ++ [block.id], by rw [hL]; simp⟩

lemma foldChildren_visited_extends (fuel : Nat) (world : World)
    (A : List Block) :
    ∀ (S : List Block) (W : List String),
      ∃ L, (foldChildren fuel world A (S, W)).2 = L ++ W := by
  induction A with
  | nil => exact fun S W => ⟨[], rfl⟩
  | cons a as ih =>
    intro S W
    simp only [foldChildren]
    obtain ⟨L2, h2⟩ := ih (S ++ (findStackAboveF fuel world a W).1)
      (findStackAboveF fuel world a W).2
    obtain ⟨L1, h1⟩ := findStackAboveF_visited_extends fuel world a W
    exact ⟨L2 ++ L1, by rw [h2, h1, List.append_assoc]⟩

lemma visited_subset_findStackAboveF (fuel : Nat) (world : World)
    (block : Block) (V : List String) :
    V ⊆ (findStackAboveF fuel world block V).2 := by
  obtain ⟨L, hL⟩ := findStackAboveF_visited_extends fuel world block V
  rw [hL]
  exact List.subset_append_right L V

lemma visited_subset_foldChildren (fuel : Nat) (world : World)
    (A : List Block) (S : List Block) (W : List String) :
    W ⊆ (foldChildren fuel world A (S, W)).2 := by
  obtain ⟨L, hL⟩ := foldChildren_visited_extends fuel world A S W
  rw [hL]
  exact List.subset_append_right L W

lemma foldChildren_stack_extends (fuel : Nat) (world : World)
    (A : List Block) :
    ∀ (S : List Block) (W : List String),
      ∃ T, (foldChildren fuel world A (S, W)).1 = S ++ T := by
  induction A with
  | nil => exact fun S W => ⟨[], by simp [foldChildren]⟩
  | cons a as ih =>
    intro S W
    simp only [foldChildren]
    obtain ⟨T, hT⟩ := ih (S ++ (findStackAboveF fuel world a W).1)
      (findStackAboveF fuel world a W).2
    exact ⟨(findStackAboveF fuel world a W).1 ++ T,
      by rw [hT, List.append_assoc]⟩

lemma freshCount_anti (world : World) {V W : List String} (h : V ⊆ W) :
    freshCount world W ≤ freshCount world V := by
  unfold freshCount
  refine List.Sublist.length_le (List.monotone_filter_right _ ?_)
  intro i hi
  simp only [decide_eq_true_eq] at hi ⊢
  exact fun hmem => hi (h hmem)

lemma freshCount_cons_of_mem (world : World) {i : String} {V : List String}
    (hmem : i ∈ world.blocks.map Block.id) (hnot : i ∉ V) :
    freshCount world (i :: V) + 1 = freshCount world V := by
  unfold freshCount
  have key : ∀ (D : List String), D.Nodup → i ∈ D →
      (D.filter (fun j => decide (j ∉ i :: V))).length + 1 =
        (D.filter (fun j => decide (j ∉ V))).length := by
    intro D
    induction D with
    | nil => intro _ h; cases h
    | cons d D' ihD =>
      intro hnd hiD
      have hdnot := (List.nodup_cons.mp hnd).1
      have hnd' := (List.nodup_cons.mp hnd).2
      rcases List.mem_cons.mp hiD with heq | hiD'
      · subst heq
        rw [List.filter_cons_of_neg (by simp),
          List.filter_cons_of_pos (by simp [hnot]), List.length_cons]
        have hfc : List.filter (fun j => decide (j ∉ i :: V)) D' =
            List.filter (fun j => decide (j ∉ V)) D' := by
          apply List.filter_congr
          intro x hx
          have hxne : x ≠ i := fun h => hdnot (h ▸ hx)
          simp [List.mem_cons, hxne]
        rw [hfc]
      · have hdne : d ≠ i := fun h => hdnot (h ▸ hiD')
        by_cases hdV : d ∈ V
        · rw [List.filter_cons_of_neg (by simp [List.mem_cons, hdV]),
            List.filter_cons_of_neg (by simp [hdV])]
          exact ihD hnd' hiD'
        · rw [List.filter_cons_of_pos (by simp [List.mem_cons, hdV, hdne]),
            List.filter_cons_of_pos (by simp [hdV])]
          simp only [List.length_cons]
          have := ihD hnd' hiD'
          omega
  exact key _ (List.nodup_dedup _) (List.mem_dedup.mpr hmem)

lemma freshCount_le_length (world : World) (V : List String) :
    freshCount world V ≤ world.blocks.length := by
  unfold freshCount
  calc ((world.blocks.map Block.id).dedup.filter
        (fun i => decide (i ∉ V))).length
      ≤ (world.blocks.map Block.id).dedup.length :=
        List.length_filter_le _ _
    _ ≤ (world.blocks.map Block.id).length :=
        (List.dedup_sublist _).length_le
    _ = world.blocks.length := List.length_map _ _

lemma findStackAboveF_stab :
    ∀ (fuel : Nat) (world : World) (block : Block) (V : List String),
      block.id ∈ world.blocks.map Block.id ∨ block.id ∈ V →
      freshCount world V + 1 ≤ fuel →
      findStackAboveF fuel world block V =
        findStackAboveF (fuel + 1) world block V := by
  intro fuel
  induction fuel with
  | zero =>
    intro world block V _ hle
    exact absurd hle (Nat.not_succ_le_zero _)
  | succ fuel ih =>
    intro world block V hb hle
    by_cases hmem : block.id ∈ V
    · rw [findStackAboveF_of_mem _ _ _ _ hmem,
        findStackAboveF_of_mem _ _ _ _ hmem]
    · have hbid : block.id ∈ world.blocks.map Block.id :=
        hb.resolve_right hmem
      rw [findStackAboveF_succ, findStackAboveF_succ, if_neg hmem,
        if_neg hmem]
      have hfresh1 : freshCount world (block.id :: V) + 1 ≤ fuel := by
        have := freshCount_cons_of_mem world hbid hmem
        omega
      have hfold : ∀ (A : List Block), (∀ a ∈ A, a ∈ world.blocks) →
          ∀ (S : List Block) (W : List String),
          freshCount world W + 1 ≤ fuel →
          foldChildren fuel world A (S, W) =
            foldChildren (fuel + 1) world A (S, W) := by
        intro A
        induction A with
        | nil => intro _ S W _; rfl
        | cons a as ihA =>
          intro hmemA S W hle'
          simp only [foldChildren]
          have hchild : findStackAboveF fuel world a W =
              findStackAboveF (fuel + 1) world a W :=
            ih world a W
              (Or.inl (List.mem_map_of_mem _
                (hmemA a (List.mem_cons_self a as))))
              hle'
          rw [← hchild]
          apply ihA (fun b hb' => hmemA b (List.mem_cons_of_mem _ hb'))
          have hsub : W ⊆ (findStackAboveF fuel world a W).2 :=
            visited_subset_findStackAboveF fuel world a W
          have := freshCount_anti world hsub
          omega
      rw [hfold (findBlocksDirectlyAbove world block)
        (fun a ha => List.mem_of_mem_filter ha) [] (block.id :: V) hfresh1]

lemma findStackAboveF_stable (world : World) (block : Block)
    (V : List String)
    (hb : block.id ∈ world.blocks.map Block.id ∨ block.id ∈ V) :
    ∀ fuel, freshCount world V + 1 ≤ fuel →
      findStackAboveF fuel world block V =
        findStackAboveF (freshCount world V + 1) world block V := by
  intro fuel
  induction fuel with
  | zero => intro h; exact absurd h (Nat.not_succ_le_zero _)
  | succ fuel ih =>
    intro h
    rcases Nat.lt_or_ge fuel (freshCount world V + 1) with hlt | hge
    · have heq : fuel + 1 = freshCount world V + 1 := by omega
      rw [heq]
    · rw [← findStackAboveF_stab fuel world block V hb hge]
      exact ih hge

lemma findStackAbove_stable_of_fuel (world : World) (block : Block)
    (hb : block ∈ world.blocks) :
    ∀ fuel, world.blocks.length + 1 ≤ fuel →
      findStackAboveF fuel world block [] =
        findStackAboveF (world.blocks.length + 1) world block [] := by
  intro fuel hfuel
  have hbid : block.id ∈ world.blocks.map Block.id :=
    List.mem_map_of_mem _ hb
  have hN : freshCount world [] + 1 ≤ world.blocks.length + 1 := by
    have := freshCount_le_length world []
    omega
  rw [findStackAboveF_stable world block [] (Or.inl hbid) fuel
      (le_trans hN hfuel),
    findStackAboveF_stable world block [] (Or.inl hbid)
      (world.blocks.length + 1) hN]

lemma ReachAvoid_anti {world : World} {V W : List String} {l u : Block}
    (hVW : V ⊆ W) (h : ReachAvoid world W l u) : ReachAvoid world V l u := by
  induction h with
  | single hd hn => exact ReachAvoid.single hd (fun hm => hn (hVW hm))
  | tail _ hd hn ih => exact ReachAvoid.tail ih hd (fun hm => hn (hVW hm))

lemma ReachAvoid_head {world : World} {V : List String} {l m u : Block}
    (hd : directAbove world l m) (hm : m.id ∉ V)
    (h : ReachAvoid world V m u) : ReachAvoid world V l u := by
  induction h with
  | single hd2 hn => exact ReachAvoid.tail (ReachAvoid.single hd hm) hd2 hn
  | tail _ hd2 hn ih => exact ReachAvoid.tail ih hd2 hn

lemma ReachAvoid_mem {world : World} {V : List String} {l u : Block}
    (h : ReachAvoid world V l u) : u ∈ world.blocks := by
  induction h with
  | single hd _ => exact hd.1
  | tail _ hd _ => exact hd.1

lemma mem_findBlocksDirectlyAbove {world : World} {b u : Block} :
    u ∈ findBlocksDirectlyAbove world b ↔ directAbove world b u := by
  unfold findBlocksDirectlyAbove directAbove
  simp only [List.mem_filter, Bool.and_eq_true, bne_iff_ne, ne_eq,
    Bool.not_eq_true']
  tauto

lemma findStackAboveF_sound :
    ∀ (fuel : Nat) (world : World) (block : Block) (V : List String),
      (∀ i, i ∈ (findStackAboveF fuel world block V).2 →
        i ∈ V ∨ i = block.id ∨
          ∃ x, ReachAvoid world V block x ∧ x.id = i) ∧
      (∀ x, x ∈ (findStackAboveF fuel world block V).1 →
        directAbove world block x ∨
          ∃ m, ReachAvoid world V block m ∧ directAbove world m x) := by
  intro fuel
  induction fuel with
  | zero =>
    intro world block V
    exact ⟨fun i hi => Or.inl hi, fun x hx => absurd hx (List.not_mem_nil x)⟩
  | succ fuel ih =>
    intro world block V
    by_cases hbV : block.id ∈ V
    · rw [findStackAboveF_of_mem _ _ _ _ hbV]
      exact ⟨fun i hi => Or.inl hi,
        fun x hx => absurd hx (List.not_mem_nil x)⟩
    · rw [findStackAboveF_succ, if_neg hbV]
      have hfold : ∀ (A : List Block),
          (∀ a ∈ A, directAbove world block a) →
          ∀ (S : List Block) (W : List String),
          V ⊆ W →
          (∀ i ∈ W, i ∈ V ∨ i = block.id ∨
            ∃ x, ReachAvoid world V block x ∧ x.id = i) →
          (∀ x ∈ S, directAbove world block x ∨
            ∃ m, ReachAvoid world V block m ∧ directAbove world m x) →
          (∀ i ∈ (foldChildren fuel world A (S, W)).2, i ∈ V ∨
            i = block.id ∨
            ∃ x, ReachAvoid world V block x ∧ x.id = i) ∧
          (∀ x ∈ (foldChildren fuel world A (S, W)).1,
            directAbove world block x ∨
            ∃ m, ReachAvoid world V block m ∧ directAbove world m x) := by
        intro A
        induction A with
        | nil => exact fun _ S W _ hWinv hSinv => ⟨hWinv, hSinv⟩
        | cons a as ihA =>
          intro hA S W hVW hWinv hSinv
          simp only [foldChildren]
          have haA : directAbove world block a :=
            hA a (List.mem_cons_self a as)
          by_cases haW : a.id ∈ W
          · rw [findStackAboveF_of_mem fuel world a W haW]
            simp only [List.append_nil]
            exact ihA (fun b hb' => hA b (List.mem_cons_of_mem _ hb'))
              S W hVW hWinv hSinv
          · have haV : a.id ∉ V := fun hV => haW (hVW hV)
            have hchild := ih world a W
            apply ihA (fun b hb' => hA b (List.mem_cons_of_mem _ hb'))
            · exact fun i hi =>
                visited_subset_findStackAboveF fuel world a W (hVW hi)
            · intro i hi
              rcases hchild.1 i hi with hiW | hia | ⟨x, hx, hxi⟩
              · exact hWinv i hiW
              · exact Or.inr (Or.inr
                  ⟨a, ReachAvoid.single haA haV, hia.symm⟩)
              · exact Or.inr (Or.inr ⟨x,
                  ReachAvoid_head haA haV (ReachAvoid_anti hVW hx), hxi⟩)
            · intro x hx
              rcases List.mem_append.mp hx with hxS | hxc
              · exact hSinv x hxS
              · rcases hchild.2 x hxc with hdx | ⟨m, hm, hdm⟩
                · exact Or.inr ⟨a, ReachAvoid.single haA haV, hdx⟩
                · exact Or.inr ⟨m,
                    ReachAvoid_head haA haV (ReachAvoid_anti hVW hm), hdm⟩
      obtain ⟨h2, h1⟩ := hfold (findBlocksDirectlyAbove world block)
        (fun a ha => mem_findBlocksDirectlyAbove.mp ha) [] (block.id :: V)
        (fun i hi => List.mem_cons_of_mem _ hi)
        (fun i hi => by
          rcases List.mem_cons.mp hi with h | h
          · exact Or.inr (Or.inl h)
          · exact Or.inl h)
        (fun x hx => absurd hx (List.not_mem_nil x))
      refine ⟨h2, fun x hx => ?_⟩
      rcases List.mem_append.mp hx with hxA | hxr
      · exact Or.inl (mem_findBlocksDirectlyAbove.mp hxA)
      · exact h1 x hxr

lemma findStackAboveF_closed :
    ∀ (fuel : Nat) (world : World),
      (world.blocks.map Block.id).Nodup →
      ∀ (block : Block) (V : List String), block ∈ world.blocks →
      freshCount world V + 1 ≤ fuel →
      block.id ∈ V ∨
      (block.id ∈ (findStackAboveF fuel world block V).2 ∧
       ∀ e ∈ world.blocks, e.id ∉ V →
         e.id ∈ (findStackAboveF fuel world block V).2 →
         ∀ c ∈ findBlocksDirectlyAbove world e,
           c.id ∈ (findStackAboveF fuel world block V).2 ∧
           c ∈ (findStackAboveF fuel world block V).1) := by
  intro fuel
  induction fuel with
  | zero =>
    intro world _ block V _ hle
    exact absurd hle (Nat.not_succ_le_zero _)
  | succ fuel ih =>
    intro world hnd block V hbmem hle
    by_cases hbV : block.id ∈ V
    · exact Or.inl hbV
    right
    rw [findStackAboveF_succ, if_neg hbV]
    have hbid : block.id ∈ world.blocks.map Block.id :=
      List.mem_map_of_mem _ hbmem
    have hfresh1 : freshCount world (block.id :: V) + 1 ≤ fuel := by
      have := freshCount_cons_of_mem world hbid hbV
      omega
    have hfold : ∀ (A : List Block), (∀ a ∈ A, a ∈ world.blocks) →
        ∀ (S : List Block) (W : List String),
        freshCount world W + 1 ≤ fuel →
        (∀ a ∈ A, a.id ∈ (foldChildren fuel world A (S, W)).2) ∧
        (∀ e ∈ world.blocks, e.id ∉ W →
          e.id ∈ (foldChildren fuel world A (S, W)).2 →
          ∀ c ∈ findBlocksDirectlyAbove world e,
            c.id ∈ (foldChildren fuel world A (S, W)).2 ∧
            c ∈ (foldChildren fuel world A (S, W)).1) := by
      intro A
      induction A with
      | nil =>
        intro _ S W _
        refine ⟨fun a ha => absurd ha (List.not_mem_nil a), ?_⟩
        intro e _ heW hein
        exact absurd hein heW
      | cons a as ihA =>
        intro hAmem S W hleW
        simp only [foldChildren]
        by_cases haW : a.id ∈ W
        · rw [findStackAboveF_of_mem fuel world a W haW]
          simp only [List.append_nil]
          obtain ⟨hF3, hF4⟩ := ihA
            (fun b hb' => hAmem b (List.mem_cons_of_mem _ hb')) S W hleW
          refine ⟨?_, hF4⟩
          intro b hb'
          rcases List.mem_cons.mp hb' with rfl | hbas
          · exact visited_subset_foldChildren fuel world as S W haW
          · exact hF3 b hbas
        · have hamem : a ∈ world.blocks := hAmem a (List.mem_cons_self a as)
          rcases ih world hnd a W hamem hleW with h | ⟨haid, hclosed⟩
          · exact absurd h haW
          have hfreshc :
              freshCount world (findStackAboveF fuel world a W).2 + 1 ≤
                fuel := by
            have hsub : W ⊆ (findStackAboveF fuel world a W).2 :=
              visited_subset_findStackAboveF fuel world a W
            have h1 := freshCount_anti world hsub
            omega
          obtain ⟨hF3, hF4⟩ := ihA
            (fun b hb' => hAmem b (List.mem_cons_of_mem _ hb'))
            (S ++ (findStackAboveF fuel world a W).1)
            (findStackAboveF fuel world a W).2 hfreshc
          have hsub2 : (findStackAboveF fuel world a W).2 ⊆
              (foldChildren fuel world as
                (S ++ (findStackAboveF fuel world a W).1,
                 (findStackAboveF fuel world a W).2)).2 :=
            visited_subset_foldChildren fuel world as _ _
          obtain ⟨T, hT⟩ := foldChildren_stack_extends fuel world as
            (S ++ (findStackAboveF fuel world a W).1)
            (findStackAboveF fuel world a W).2
          refine ⟨?_, ?_⟩
          · intro b hb'
            rcases List.mem_cons.mp hb' with rfl | hbas
            · exact hsub2 haid
            · exact hF3 b hbas
          · intro e hemem heW hein c hc
            by_cases hechild : e.id ∈ (findStackAboveF fuel world a W).2
            · obtain ⟨hc2, hc1⟩ := hclosed e hemem heW hechild c hc
              refine ⟨hsub2 hc2, ?_⟩
              rw [hT]
              exact List.mem_append_left T (List.mem_append_right S hc1)
            · exact hF4 e hemem hechild hein c hc
    obtain ⟨hF3, hF4⟩ := hfold (findBlocksDirectlyAbove world block)
      (fun a ha => List.mem_of_mem_filter ha) [] (block.id :: V) hfresh1
    have hroot : block.id ∈ (foldChildren fuel world
        (findBlocksDirectlyAbove world block) ([], block.id :: V)).2 :=
      visited_subset_foldChildren fuel world _ [] _ (List.mem_cons_self _ _)
    refine ⟨hroot, ?_⟩
    intro e hemem heV hein c hc
    by_cases heb : e.id = block.id
    · have heeq : e = block := List.inj_on_of_nodup_map hnd hemem hbmem heb
      subst heeq
      exact ⟨hF3 c hc, List.mem_append_left _ hc⟩
    · have heV' : e.id ∉ block.id :: V := by
        intro h
        rcases List.mem_cons.mp h with h1 | h2
        · exact heb h1
        · exact heV h2
      obtain ⟨hc2, hc1⟩ := hF4 e hemem heV' hein c hc
      exact ⟨hc2, List.mem_append_right _ hc1⟩

lemma findStackAbove_complete (world : World) (block : Block)
    (hnd : (world.blocks.map Block.id).Nodup) (hb : block ∈ world.blocks)
    {x : Block} (hx : RestsAbove world block x) :
    x ∈ findStackAbove world block := by
  have hfresh : freshCount world [] + 1 ≤ world.blocks.length + 1 := by
    have := freshCount_le_length world []
    omega
  rcases findStackAboveF_closed (world.blocks.length + 1) world hnd
      block [] hb hfresh with h | ⟨hroot, hclosed⟩
  · exact absurd h (List.not_mem_nil _)
  have hx' : ReachAvoid world [] block x := hx
  clear hx
  have main :
      x ∈ (findStackAboveF (world.blocks.length + 1) world block []).1 ∧
      x.id ∈ (findStackAboveF (world.blocks.length + 1) world block []).2 := by
    induction hx' with
    | single hd _ =>
      obtain ⟨hc2, hc1⟩ := hclosed block hb (List.not_mem_nil _) hroot _
        (mem_findBlocksDirectlyAbove.mpr hd)
      exact ⟨hc1, hc2⟩
    | tail hr hd _ ih =>
      obtain ⟨_, hmid⟩ := ih
      obtain ⟨hc2, hc1⟩ := hclosed _ (ReachAvoid_mem hr)
        (List.not_mem_nil _) hmid _ (mem_findBlocksDirectlyAbove.mpr hd)
      exact ⟨hc1, hc2⟩
  exact main.1

lemma findStackAbove_sound_mem (world : World) (block : Block) {x : Block}
    (hx : x ∈ findStackAbove world block) : RestsAbove world block x := by
  rcases (findStackAboveF_sound (world.blocks.length + 1) world block []).2
      x hx with hd | ⟨m, hm, hd⟩
  · exact ReachAvoid.single hd (List.not_mem_nil _)
  · exact ReachAvoid.tail hm hd (List.not_mem_nil _)

/-- C6 (amended): for every world whose blocks carry distinct ids and every
base block in it, the fuel-based embedding of `findStackAbove` terminates: the
recursion stabilises at `world.blocks.length + 1` nested calls (more fuel
never changes the result), even when the resting-on relation is cyclic; and
the returned stack contains exactly the blocks transitively resting above the
base, i.e. those reachable from the base by one or more `directAbove` steps
(`directAbove` requires a distinct id, a non-static block, and `isBlockAbove`:
bottom edge within `CONTACT_TOLERANCE` of the lower block's top edge plus
strict horizontal span overlap). The original claim's further clauses - that
the base itself is never returned and that no block appears twice - are false:
see `findStackAbove_claim_counterexample`. -/
theorem findStackAbove_amended (world : World) (block : Block)
    (hb : block ∈ world.blocks)
    (hnd : (world.blocks.map Block.id).Nodup) :
    (∀ fuel, world.blocks.length + 1 ≤ fuel →
      findStackAboveF fuel world block [] =
        findStackAboveF (world.blocks.length + 1) world block []) ∧
    (∀ x, x ∈ findStackAbove world block ↔ RestsAbove world block x) :=
  ⟨findStackAbove_stable_of_fuel world block hb,
   fun x => ⟨findStackAbove_sound_mem world block,
     findStackAbove_complete world block hnd hb⟩⟩

/-- Witness for C6: in the concrete diamond world the top slab `dT` rests
(transitively, via `dL`) above `dBase`, so the amended theorem puts it in
`findStackAbove diamondWorld dBase`. -/
theorem findStackAbove_amended_witness :
    dT ∈ findStackAbove diamondWorld dBase := by
  have hmem : dBase ∈ diamondWorld.blocks := by
    simp [diamondWorld, sampleWorld]
  have hnd : (diamondWorld.blocks.map Block.id).Nodup := by
    simp [diamondWorld, sampleWorld, dBase, dL, dR, dT, sampleBlock]
  have hdLbase : directAbove diamondWorld dBase dL := by
    refine ⟨by simp [diamondWorld, sampleWorld],
      by simp [dL, dBase, sampleBlock], rfl, ?_⟩
    norm_num [isBlockAbove, getBounds, CONTACT_TOLERANCE, dL, dBase,
      sampleBlock, abs_lt]
  have hdTL : directAbove diamondWorld dL dT := by
    refine ⟨by simp [diamondWorld, sampleWorld],
      by simp [dT, dL, sampleBlock], rfl, ?_⟩
    norm_num [isBlockAbove, getBounds, CONTACT_TOLERANCE, dT, dL,
      sampleBlock, abs_lt]
  exact ((findStackAbove_amended diamondWorld dBase hmem hnd).2 dT).mpr
    (ReachAvoid.tail (ReachAvoid.single hdLbase (List.not_mem_nil _)) hdTL
      (List.not_mem_nil _))

/-- C6 counterexample to the original claim: with two thin blocks resting on
each other cyclically, the traversal returns the base block itself (the
visited set is only consulted for recursion, not for the returned list); and
in the diamond world the top slab is returned twice (once under each support),
so the result is not duplicate-free. -/
theorem findStackAbove_claim_counterexample :
    (cycleA ∈ findStackAbove cycleWorld cycleA ∧
      findStackAbove cycleWorld cycleA = [cycleB, cycleA]) ∧
    (¬ (findStackAbove diamondWorld dBase).Nodup ∧
      findStackAbove diamondWorld dBase = [dL, dR, dT, dT]) := by
  have h1 : findStackAbove cycleWorld cycleA = [cycleB, cycleA] := by
    norm_num [findStackAbove, findStackAboveF, findBlocksDirectlyAbove,
      cycleWorld, sampleWorld, List.filter_cons, List.filter_nil,
      isBlockAbove, getBounds, CONTACT_TOLERANCE, cycleA, cycleB,
      sampleBlock, abs_lt]
    simp +decide
    norm_num [abs_lt]
  have h2 : findStackAbove diamondWorld dBase = [dL, dR, dT, dT] := by
    norm_num [findStackAbove, findStackAboveF, findBlocksDirectlyAbove,
      diamondWorld, sampleWorld, List.filter_cons, List.filter_nil,
      isBlockAbove, getBounds, CONTACT_TOLERANCE, dBase, dL, dR, dT,
      sampleBlock, abs_lt]
    simp +decide
    norm_num [abs_lt]
    simp +decide
  refine ⟨⟨?_, h1⟩, ?_, h2⟩
  · rw [h1]
    simp
  · rw [h2]
    intro h
    simp [List.nodup_cons] at h
